import Mathlib

/-!
Verification of the reconciliation / revision-tracking engine of the
econdatapipeline repository, against its natural-language specification.

The embedding follows the Python source:
  * `src/azure_data_tracker.py` : `smart_update`, `get_revision_history`
  * `src/azure_connector.py`    : `AzureConnector.query_entities`,
    `AzureConnector.batch_upsert` (store effect), `AzureConnector.should_update`

Modelling conventions:
  * Python floats are embedded as rationals (`ℚ`); the tolerance `0.001`
    becomes `1/1000`.
  * A pandas row / Azure Table entity is a Python dict, embedded as an
    association list with dict update discipline (`setA`), so at most one
    binding per key ever arises from the code paths modelled here.
  * Wall-clock timestamps produced by `datetime.utcnow().isoformat()` are
    opaque ISO-8601 strings, ordered lexicographically (which coincides with
    chronological order for this fixed format); one string stands for the
    whole run's clock readings.
  * The storage gateway is modelled by its observable behaviour during one
    `smart_update` call: the boolean result of `create_table`, the outcome of
    the raw table query (`Except`, caught inside `query_entities`), and the
    boolean results of the three `batch_upsert` calls.  The effect of a
    successful batched upsert on a table is `batch_upsert_apply` (Azure
    Tables upsert defaults to merge mode).
-/

namespace EconDataPipeline

/-- Scalar cell values flowing through the pipeline (pandas cells, Azure Table
properties).  `num q` is a numeric value (Python int/float, embedded as a
rational); `nan` is null/NaN (`pd.isna` holds); `str s` is a non-numeric string
(for example a formatted date), for which Python `float(s)` raises
`ValueError`. -/
inductive Val where
  | num (q : ℚ)
  | nan
  | str (s : String)
  deriving DecidableEq

/-- Lookup in a Python-dict-style association list (first binding of the key
wins; the update discipline `setA` keeps at most one binding per key on all
code paths modelled here). -/
def lookupA {α β : Type} [BEq α] (l : List (α × β)) (k : α) : Option β :=
  (l.find? (fun p => p.1 == k)).map (fun p => p.2)

/-- Python dict assignment `d[k] = v`: replace the binding in place if the key
is present (keeping its position, as CPython dicts preserve insertion order),
else append a new binding at the end. -/
def setA {α β : Type} [BEq α] (l : List (α × β)) (k : α) (v : β) :
    List (α × β) :=
  if (l.find? (fun p => p.1 == k)).isSome then
    l.map (fun p => if p.1 == k then (k, v) else p)
  else
    l ++ [(k, v)]

/-- A pandas DataFrame row, as produced by `row.to_dict()`. -/
abbrev Row : Type := List (String × Val)

/-- An Azure Table entity (a dict with `PartitionKey`/`RowKey` and data
columns). -/
abbrev Entity : Type := List (String × Val)

/-- `pd.isna(v)` on a scalar. -/
def isna : Val → Bool
  | .nan => true
  | _ => false

/-- Python `float(v)`: numbers convert, non-numeric strings raise
`ValueError` (embedded as `none`).  In `smart_update` this is only reached
after the `pd.isna` guard, so the `nan` case is unreachable there. -/
def toFloat : Val → Option ℚ
  | .num q => some q
  | _ => none

/-- Result counts of `smart_update` (`{"new": _, "updated": _,
"revisions": _}`). -/
structure Counts where
  new : Nat
  updated : Nat
  revisions : Nat
  deriving DecidableEq

/-- Observable behaviour of the `AzureConnector` during one `smart_update`
call: result of `create_table`, outcome of the raw entity query underlying
`query_entities` (an exception or a list of entities), and the results of the
three potential `batch_upsert` calls (new records, updated records, revision
entries). -/
structure ConnBehavior where
  createTableOk : Bool
  fetchResult : Except Unit (List Entity)
  newOk : Bool
  updatedOk : Bool
  revisionsOk : Bool

/-- `AzureConnector.query_entities` (azure_connector.py lines 244-266): any
exception from the underlying query is caught and an empty list is
returned. -/
def query_entities : Except Unit (List Entity) → List Entity
  | .ok es => es
  | .error _ => []

/-- The dictionary `existing_data` built by `smart_update` lines 61-64: index
the fetched entities by their value at the date column, skipping entities
without that column; a Python dict assignment means a later entity with the
same date overwrites an earlier one. -/
def buildIndex (dateField : String) (es : List Entity) :
    List (Val × Entity) :=
  es.foldl
    (fun idx e =>
      match lookupA e dateField with
      | some d => setA idx d e
      | none => idx)
    []

/-- The entity built for a row in `smart_update` lines 76-84: a dict seeded
with `PartitionKey`/`RowKey` into which every field of the row is then
assigned. -/
def mkEntity (datasetName recordDate : String) (row : Row) : Entity :=
  row.foldl (fun e p => setA e p.1 p.2)
    [("PartitionKey", Val.str datasetName), ("RowKey", Val.str recordDate)]

/-- The value `record_date = record_dict[date_field]` of a (normalized) row;
after the date-column normalization every row holds a string there. -/
def rowDate (dateField : String) (row : Row) : String :=
  match lookupA row dateField with
  | some (Val.str s) => s
  | _ => ""

/-- The per-field comparison of `smart_update` lines 95-130: skip the field if
it is missing on either side, if either value is null/NaN, or if either float
conversion fails; otherwise report `(old_value_float, new_value_float)` when
the absolute difference exceeds the `0.001` tolerance, and nothing when it
does not. -/
def diffField (row : Row) (existingRow : Entity) (field : String) :
    Option (ℚ × ℚ) :=
  match lookupA row field, lookupA existingRow field with
  | some newValue, some oldValue =>
    if isna newValue || isna oldValue then none
    else
      match toFloat newValue, toFloat oldValue with
      | some newFloat, some oldFloat =>
        if |newFloat - oldFloat| > 1 / 1000 then some (oldFloat, newFloat)
        else none
      | _, _ => none
  | _, _ => none

/-- The revision entity appended in `smart_update` lines 117-127.  `now`
stands for the `datetime.utcnow().isoformat()` readings of the run. -/
def mkRevision (datasetName recordDate field : String) (oldV newV : ℚ)
    (now : String) : Entity :=
  [("PartitionKey", Val.str datasetName),
   ("RowKey", Val.str (recordDate ++ "_" ++ field ++ "_" ++ now)),
   ("dataset", Val.str datasetName),
   ("data_date", Val.str recordDate),
   ("value_field", Val.str field),
   ("old_value", Val.num oldV),
   ("new_value", Val.num newV),
   ("revision_date", Val.str now)]

/-- The three accumulator lists of the classification loop of `smart_update`
(lines 66-69): `new_records`, `updates`, `revisions`. -/
structure DiffAcc where
  newRecords : List Entity
  updates : List Entity
  revisions : List Entity
  deriving DecidableEq

/-- One iteration of the classification loop of `smart_update` (lines 72-133):
a row whose date is absent from the index is appended to `new_records`;
otherwise each tracked field is compared with `diffField` in order, every
triggered field appends one revision entry, and the row's entity is appended
to `updates` exactly when at least one field triggered (`record_changed`). -/
def processRow (datasetName dateField : String) (valueFields : List String)
    (now : String) (idx : List (Val × Entity)) (acc : DiffAcc) (row : Row) :
    DiffAcc :=
  let recordDate := rowDate dateField row
  let entity := mkEntity datasetName recordDate row
  match lookupA idx (Val.str recordDate) with
  | none =>
    { acc with newRecords := acc.newRecords ++ [entity] }
  | some existingRow =>
    let revs := valueFields.filterMap (fun field =>
      (diffField row existingRow field).map (fun p =>
        mkRevision datasetName recordDate field p.1 p.2 now))
    { newRecords := acc.newRecords,
      updates := if revs.isEmpty then acc.updates else acc.updates ++ [entity],
      revisions := acc.revisions ++ revs }

/-- The in-place date-column normalization of `smart_update` line 47
(`data_df[date_field] = pd.to_datetime(data_df[date_field]).dt.strftime(
'%Y-%m-%d')`).  `normDate` stands for the composite
`strftime('%Y-%m-%d') ∘ pd.to_datetime` on one cell; the date parse is assumed
to succeed (spec input constraint: the date field holds a date convertible to
canonical form).  A row without the date column cannot occur here:
`smart_update` aborts (returns `none`) on such input before normalizing. -/
def normalizeRow (dateField : String) (normDate : Val → String) (row : Row) :
    Row :=
  match lookupA row dateField with
  | some v => setA row dateField (Val.str (normDate v))
  | none => row

/-- The full result of one `smart_update` call: the returned counts, the
post-call state of the caller's DataFrame (the function mutates its argument
in place), whether `create_table` and the entity query were reached, and the
argument lists of the `batch_upsert` calls that were issued (`none` when the
corresponding group was empty and no call was made). -/
structure SUOutput where
  counts : Counts
  dfAfter : List Row
  createCalled : Bool
  fetchCalled : Bool
  newWrites : Option (List Entity)
  updWrites : Option (List Entity)
  revWrites : Option (List Entity)

/-- `smart_update` (azure_data_tracker.py lines 27-165).  Empty input returns
all-zero counts before touching storage (lines 42-44); then the date column is
normalized in place (line 47); a failed `create_table` aborts with all-zero
counts (lines 49-52); the existing entities are fetched and indexed by date
(lines 54-64); every row is classified by the loop of lines 72-133; finally
each non-empty group is written with one `batch_upsert` call and contributes
its size to the counts exactly when that call reports success (lines
135-165).  The result is `none` when the DataFrame lacks the date column, in
which case line 47 raises and the call never returns. -/
def smart_update (beh : ConnBehavior) (datasetName : String) (df : List Row)
    (dateField : String) (valueFields : List String) (normDate : Val → String)
    (now : String) : Option SUOutput :=
  if df.isEmpty then
    some { counts := ⟨0, 0, 0⟩, dfAfter := df, createCalled := false,
           fetchCalled := false, newWrites := none, updWrites := none,
           revWrites := none }
  else if ¬ df.all (fun r => (lookupA r dateField).isSome) then
    none
  else
    let df2 := df.map (normalizeRow dateField normDate)
    if ¬ beh.createTableOk then
      some { counts := ⟨0, 0, 0⟩, dfAfter := df2, createCalled := true,
             fetchCalled := false, newWrites := none, updWrites := none,
             revWrites := none }
    else
      let existing := query_entities beh.fetchResult
      let idx := buildIndex dateField existing
      let acc := df2.foldl
        (processRow datasetName dateField valueFields now idx) ⟨[], [], []⟩
      some
        { counts :=
            ⟨if acc.newRecords.isEmpty then 0
              else if beh.newOk then acc.newRecords.length else 0,
             if acc.updates.isEmpty then 0
              else if beh.updatedOk then acc.updates.length else 0,
             if acc.revisions.isEmpty then 0
              else if beh.revisionsOk then acc.revisions.length else 0⟩,
          dfAfter := df2, createCalled := true, fetchCalled := true,
          newWrites :=
            if acc.newRecords.isEmpty then none else some acc.newRecords,
          updWrites := if acc.updates.isEmpty then none else some acc.updates,
          revWrites :=
            if acc.revisions.isEmpty then none else some acc.revisions }

/-- Whether two entities denote the same stored table cell: equal
`PartitionKey` and equal `RowKey`. -/
def sameKey (a b : Entity) : Bool :=
  lookupA a "PartitionKey" == lookupA b "PartitionKey" &&
    lookupA a "RowKey" == lookupA b "RowKey"

/-- Azure Tables upsert in its default merge mode: properties of the incoming
entity are assigned over the stored one. -/
def mergeEntity (stored incoming : Entity) : Entity :=
  incoming.foldl (fun e p => setA e p.1 p.2) stored

/-- Effect of upserting one entity into a table: merge over the entity with
the same `(PartitionKey, RowKey)` if one is stored, else append. -/
def upsertEntity (table : List Entity) (e : Entity) : List Entity :=
  if table.any (fun stored => sameKey stored e) then
    table.map (fun stored => if sameKey stored e then mergeEntity stored e
      else stored)
  else
    table ++ [e]

/-- Effect of a successful `AzureConnector.batch_upsert` (azure_connector.py
lines 184-217) on the stored table: the entities are upserted in list
order. -/
def batch_upsert_apply (table : List Entity) (es : List Entity) :
    List Entity :=
  es.foldl upsertEntity table

/-- `AzureConnector.should_update` (azure_connector.py lines 602-621).
`lastRun` is the parsed `last_run` timestamp of `get_last_run` (in seconds,
`none` when no prior successful run is recorded), `now` is
`datetime.utcnow()` in seconds. -/
def should_update (lastRun : Option ℚ) (now : ℚ)
    (updateFrequencyHours : ℚ) : Bool :=
  match lastRun with
  | none => true
  | some t => decide ((now - t) / 3600 ≥ updateFrequencyHours)

/-- Lexicographic comparison of character lists by code point, the order that
underlies comparison of ISO-8601 timestamp strings (for this fixed format it
coincides with chronological order, which is how `pandas.sort_values` on the
parsed datetimes orders the rows). -/
def chLe : List Char → List Char → Bool
  | [], _ => true
  | _ :: _, [] => false
  | a :: as, b :: bs =>
    if a < b then true
    else if b < a then false
    else chLe as bs

/-- String comparison via `chLe` on the character data. -/
def strLe (a b : String) : Bool := chLe a.data b.data

/-- The sort key of a revision row: its `revision_date` timestamp string
(rows lacking it sort last in the descending order, matching pandas putting
`NaT` last). -/
def revKey (e : Entity) : String :=
  match lookupA e "revision_date" with
  | some (Val.str s) => s
  | _ => ""

/-- The comparator for `sort_values('revision_date', ascending=False)`:
element `a` may precede `b` when its key is at least `b`'s. -/
def revDescLe (a b : Entity) : Bool := strLe (revKey b) (revKey a)

/-- The OData filter built by `get_revision_history` lines 183-192
(`PartitionKey eq '{dataset}'`, optionally `and data_date eq '{date}'` and
`and value_field eq '{field}'`), as evaluated by the table service on one
entity: exact match on every provided part, AND semantics. -/
def matchesRevisionFilter (dataset : String) (date fieldName : Option String)
    (e : Entity) : Bool :=
  (lookupA e "PartitionKey" == some (Val.str dataset)) &&
    (match date with
     | some d => lookupA e "data_date" == some (Val.str d)
     | none => true) &&
    (match fieldName with
     | some f => lookupA e "value_field" == some (Val.str f)
     | none => true)

/-- The column selection and rename of `get_revision_history` lines 220-232:
keep the mapped columns (in mapping order) and rename `PartitionKey` to
`dataset`. -/
def projectRevision (e : Entity) : Entity :=
  ["PartitionKey", "data_date", "value_field", "old_value", "new_value",
    "revision_date"].filterMap
    (fun k => (lookupA e k).map
      (fun v => (if k == "PartitionKey" then "dataset" else k, v)))

/-- `get_revision_history` (azure_data_tracker.py lines 167-234), applied to
the stored contents `ledger` of the `data_revisions` table: filter by the
built query, return an empty (not null) frame when nothing matches, otherwise
sort by `revision_date` descending, truncate when a (truthy, hence nonzero)
`limit` is given and exceeded, and project/rename the revision columns.
Timestamp parsing by `pd.to_datetime` is modelled as the identity on the
canonical ISO strings, whose lexicographic order is chronological. -/
def get_revision_history (ledger : List Entity) (dataset : String)
    (date fieldName : Option String) (limit : Option Nat) : List Entity :=
  let result := ledger.filter (matchesRevisionFilter dataset date fieldName)
  if result.isEmpty then []
  else
    let sorted := result.mergeSort revDescLe
    let limited :=
      match limit with
      | some l => if l ≠ 0 ∧ sorted.length > l then sorted.take l else sorted
      | none => sorted
    limited.map projectRevision

/-- Number of revision entries in a list that concern the data point
`(d, f)`. -/
def revCount (revs : List Entity) (d f : String) : Nat :=
  (revs.filter (fun e =>
    lookupA e "data_date" == some (Val.str d) &&
      lookupA e "value_field" == some (Val.str f))).length

/-- Derived form of one loop iteration: the entity appended to `new_records`
by `processRow`, if any. -/
def rowNew (datasetName dateField : String) (idx : List (Val × Entity))
    (row : Row) : Option Entity :=
  match lookupA idx (Val.str (rowDate dateField row)) with
  | none => some (mkEntity datasetName (rowDate dateField row) row)
  | some _ => none

/-- Derived form of one loop iteration: the revision entries appended to
`revisions` by `processRow`. -/
def rowRevs (datasetName dateField : String) (valueFields : List String)
    (now : String) (idx : List (Val × Entity)) (row : Row) : List Entity :=
  match lookupA idx (Val.str (rowDate dateField row)) with
  | none => []
  | some existingRow =>
    valueFields.filterMap (fun field =>
      (diffField row existingRow field).map (fun p =>
        mkRevision datasetName (rowDate dateField row) field p.1 p.2 now))

/-- Derived form of one loop iteration: the entity appended to `updates` by
`processRow`, if any (present exactly when the row's date exists and some
tracked field triggered, i.e. `record_changed`). -/
def rowUpd (datasetName dateField : String) (valueFields : List String)
    (now : String) (idx : List (Val × Entity)) (row : Row) : Option Entity :=
  match lookupA idx (Val.str (rowDate dateField row)) with
  | none => none
  | some _ =>
    if (rowRevs datasetName dateField valueFields now idx row).isEmpty then
      none
    else some (mkEntity datasetName (rowDate dateField row) row)

/-- Count reported for one write group (lines 135-161): the group size when
the group is non-empty and its `batch_upsert` reported success, else `0`. -/
def groupCount (group : List Entity) (ok : Bool) : Nat :=
  if group.isEmpty then 0 else if ok then group.length else 0

/-- Argument of the `batch_upsert` call for one write group: the call is only
made when the group is non-empty. -/
def groupWrite (group : List Entity) : Option (List Entity) :=
  if group.isEmpty then none else some group

/-- Keys of a dict are pairwise distinct (always true of Python dicts; a
hypothesis for rows, which come from DataFrame columns). -/
def nodupKeys (r : List (String × Val)) : Prop := (r.map Prod.fst).Nodup

/-- Well-formedness of one stored record entity of a dataset table: its
`PartitionKey` is the dataset name and its `RowKey` coincides with its date
column, the key discipline under which `smart_update` writes records. -/
def WFEntity (datasetName dateField d : String) (e : Entity) : Prop :=
  lookupA e "PartitionKey" = some (Val.str datasetName) ∧
    lookupA e "RowKey" = some (Val.str d) ∧
    lookupA e dateField = some (Val.str d)

/-- Well-formedness of a stored dataset table: every entity is a well-formed
record and dates are unique (spec data-model invariant: at most one record
per `(dataset, date)`). -/
def WFTable (datasetName dateField : String) (t : List Entity) : Prop :=
  (∀ e ∈ t, ∃ d, WFEntity datasetName dateField d e) ∧
    (t.map (fun e => lookupA e dateField)).Nodup

/-- Entity `big` carries every binding of entity `small` (the relation
between a written entity and its stored, possibly merge-extended, form). -/
def entityLe (small big : Entity) : Prop :=
  ∀ f v, lookupA small f = some v → lookupA big f = some v

/-- The normalized date string of a row, as produced by line 47. -/
def normRowDate (dateField : String) (normDate : Val → String) (row : Row) :
    String :=
  rowDate dateField (normalizeRow dateField normDate row)

/-- The normalized DataFrame of one non-aborting `smart_update` run. -/
def runDf2 (dateField : String) (normDate : Val → String) (df : List Row) :
    List Row :=
  df.map (normalizeRow dateField normDate)

/-- The `existing_data` index of one `smart_update` run that reached the
fetch. -/
def runIdx (beh : ConnBehavior) (dateField : String) :
    List (Val × Entity) :=
  buildIndex dateField (query_entities beh.fetchResult)

/-- The `new_records` group of one `smart_update` run. -/
def runNewL (beh : ConnBehavior) (datasetName : String) (df : List Row)
    (dateField : String) (normDate : Val → String) : List Entity :=
  (runDf2 dateField normDate df).filterMap
    (rowNew datasetName dateField (runIdx beh dateField))

/-- The `updates` group of one `smart_update` run. -/
def runUpdL (beh : ConnBehavior) (datasetName : String) (df : List Row)
    (dateField : String) (valueFields : List String)
    (normDate : Val → String) (now : String) : List Entity :=
  (runDf2 dateField normDate df).filterMap
    (rowUpd datasetName dateField valueFields now (runIdx beh dateField))

/-- The `revisions` group of one `smart_update` run. -/
def runRevL (beh : ConnBehavior) (datasetName : String) (df : List Row)
    (dateField : String) (valueFields : List String)
    (normDate : Val → String) (now : String) : List Entity :=
  (runDf2 dateField normDate df).flatMap
    (rowRevs datasetName dateField valueFields now (runIdx beh dateField))

/-- State of the dataset table after the record writes of one successful
`smart_update` run: the new records are batch-upserted, then the updated
ones (lines 138-152); revision entries go to the separate `data_revisions`
table. -/
def tableAfterRun (beh : ConnBehavior) (datasetName : String)
    (df : List Row) (dateField : String) (valueFields : List String)
    (normDate : Val → String) (now : String) (t : List Entity) :
    List Entity :=
  batch_upsert_apply
    (batch_upsert_apply t (runNewL beh datasetName df dateField normDate))
    (runUpdL beh datasetName df dateField valueFields normDate now)

/-- Rendering of the spec sentence for `should_run` ("true if no prior
successful run is recorded, or if wall-clock time since the last recorded
success exceeds `min_interval_hours`; otherwise false"), used to compare the
claim with the code. -/
def shouldRunSpec (lastRun : Option ℚ) (now : ℚ)
    (minIntervalHours : ℚ) : Prop :=
  lastRun = none ∨ ∃ t, lastRun = some t ∧ (now - t) / 3600 > minIntervalHours

/-- Whether a stored entity's date column holds exactly the date `d` (the
membership test `record_date in existing_data` seen from the store side). -/
def dateIs (dateField d : String) (e : Entity) : Bool :=
  lookupA e dateField == some (Val.str d)

section AssocLemmas

variable {α β : Type} [BEq α] [LawfulBEq α] [DecidableEq α]

theorem lookupA_nil (k : α) : lookupA ([] : List (α × β)) k = none := rfl

theorem lookupA_cons (p : α × β) (l : List (α × β)) (k : α) :
    lookupA (p :: l) k = if p.1 == k then some p.2 else lookupA l k := by
  cases h : p.1 == k <;> simp [lookupA, List.find?_cons, h]

theorem lookupA_append (l₁ l₂ : List (α × β)) (k : α) :
    lookupA (l₁ ++ l₂) k = (lookupA l₁ k).or (lookupA l₂ k) := by
  unfold lookupA
  rw [List.find?_append]
  cases h : List.find? (fun p => p.1 == k) l₁ <;> simp [h]

theorem lookupA_map_set_ne (l : List (α × β)) (k k' : α) (v : β)
    (h : k' ≠ k) :
    lookupA (l.map (fun p => if p.1 == k then (k, v) else p)) k' =
      lookupA l k' := by
  induction l with
  | nil => rfl
  | cons p l ih =>
    by_cases hp : p.1 == k
    · rw [List.map_cons, if_pos hp, lookupA_cons, lookupA_cons, ih]
      have hkk : (k == k') = false := by
        simp only [beq_eq_false_iff_ne]
        exact Ne.symm h
      have hpk : (p.1 == k') = false := by
        simp only [beq_eq_false_iff_ne]
        intro e
        exact h (e.symm.trans (beq_iff_eq.mp hp))
      simp [hkk, hpk]
    · rw [List.map_cons, if_neg hp, lookupA_cons, lookupA_cons, ih]

theorem lookupA_map_set_hit (l : List (α × β)) (k : α) (v : β)
    (h : (l.find? (fun p => p.1 == k)).isSome) :
    lookupA (l.map (fun p => if p.1 == k then (k, v) else p)) k = some v := by
  induction l with
  | nil => simp [List.find?] at h
  | cons p l ih =>
    by_cases hp : p.1 == k
    · rw [List.map_cons, if_pos hp, lookupA_cons]
      simp
    · rw [List.map_cons, if_neg hp, lookupA_cons, if_neg hp]
      apply ih
      rw [List.find?_cons] at h
      simpa [hp] using h

theorem lookupA_setA (l : List (α × β)) (k : α) (v : β) (k' : α) :
    lookupA (setA l k v) k' = if k' = k then some v else lookupA l k' := by
  unfold setA
  by_cases hf : (l.find? (fun p => p.1 == k)).isSome
  · rw [if_pos hf]
    by_cases hk : k' = k
    · subst hk
      rw [if_pos rfl]
      exact lookupA_map_set_hit l k' v hf
    · rw [if_neg hk, lookupA_map_set_ne l k k' v hk]
  · rw [if_neg hf, lookupA_append]
    by_cases hk : k' = k
    · subst hk
      have hnone : lookupA l k' = none := by
        unfold lookupA
        rw [Option.not_isSome_iff_eq_none] at hf
        rw [hf]
        rfl
      rw [hnone, lookupA_cons]
      simp
    · rw [if_neg hk, lookupA_cons]
      have hkk : (k == k') = false := by
        simp only [beq_eq_false_iff_ne]
        exact Ne.symm hk
      simp [hkk, lookupA_nil]

theorem keys_setA (l : List (α × β)) (k : α) (v : β) :
    (setA l k v).map Prod.fst =
      if (l.find? (fun p => p.1 == k)).isSome then l.map Prod.fst
      else l.map Prod.fst ++ [k] := by
  unfold setA
  by_cases hf : (l.find? (fun p => p.1 == k)).isSome
  · rw [if_pos hf, if_pos hf, List.map_map]
    apply List.map_congr_left
    intro p _
    by_cases hp : p.1 == k
    · simp only [Function.comp_apply, if_pos hp]
      exact (beq_iff_eq.mp hp).symm
    · simp only [Function.comp_apply, if_neg hp]
  · rw [if_neg hf, if_neg hf]
    simp

end AssocLemmas

theorem rowNew_of_absent (ds dF : String) (idx : List (Val × Entity))
    (row : Row) (h : lookupA idx (Val.str (rowDate dF row)) = none) :
    rowNew ds dF idx row = some (mkEntity ds (rowDate dF row) row) := by
  simp [rowNew, h]

theorem rowNew_of_present (ds dF : String) (idx : List (Val × Entity))
    (row : Row) (existingRow : Entity)
    (h : lookupA idx (Val.str (rowDate dF row)) = some existingRow) :
    rowNew ds dF idx row = none := by
  simp [rowNew, h]

theorem rowRevs_of_absent (ds dF : String) (vF : List String) (now : String)
    (idx : List (Val × Entity)) (row : Row)
    (h : lookupA idx (Val.str (rowDate dF row)) = none) :
    rowRevs ds dF vF now idx row = [] := by
  simp [rowRevs, h]

theorem rowRevs_of_present (ds dF : String) (vF : List String)
    (now : String) (idx : List (Val × Entity)) (row : Row)
    (existingRow : Entity)
    (h : lookupA idx (Val.str (rowDate dF row)) = some existingRow) :
    rowRevs ds dF vF now idx row =
      vF.filterMap (fun field =>
        (diffField row existingRow field).map (fun p =>
          mkRevision ds (rowDate dF row) field p.1 p.2 now)) := by
  simp [rowRevs, h]

theorem rowUpd_of_absent (ds dF : String) (vF : List String) (now : String)
    (idx : List (Val × Entity)) (row : Row)
    (h : lookupA idx (Val.str (rowDate dF row)) = none) :
    rowUpd ds dF vF now idx row = none := by
  simp [rowUpd, h]

theorem rowUpd_of_present (ds dF : String) (vF : List String)
    (now : String) (idx : List (Val × Entity)) (row : Row)
    (existingRow : Entity)
    (h : lookupA idx (Val.str (rowDate dF row)) = some existingRow) :
    rowUpd ds dF vF now idx row =
      (if (rowRevs ds dF vF now idx row).isEmpty then none
       else some (mkEntity ds (rowDate dF row) row)) := by
  simp [rowUpd, h]

theorem processRow_eq (ds dF : String) (vF : List String) (now : String)
    (idx : List (Val × Entity)) (acc : DiffAcc) (row : Row) :
    processRow ds dF vF now idx acc row =
      ⟨acc.newRecords ++ (rowNew ds dF idx row).toList,
       acc.updates ++ (rowUpd ds dF vF now idx row).toList,
       acc.revisions ++ rowRevs ds dF vF now idx row⟩ := by
  simp only [processRow]
  cases h : lookupA idx (Val.str (rowDate dF row)) with
  | none =>
    rw [rowNew_of_absent ds dF idx row h, rowUpd_of_absent ds dF vF now idx
      row h, rowRevs_of_absent ds dF vF now idx row h]
    simp
  | some existingRow =>
    rw [rowNew_of_present ds dF idx row existingRow h,
      rowUpd_of_present ds dF vF now idx row existingRow h,
      rowRevs_of_present ds dF vF now idx row existingRow h]
    by_cases he : (vF.filterMap (fun field =>
        (diffField row existingRow field).map (fun p =>
          mkRevision ds (rowDate dF row) field p.1 p.2 now))).isEmpty
    · simp [he, rowRevs_of_present ds dF vF now idx row existingRow h]
    · simp [he, rowRevs_of_present ds dF vF now idx row existingRow h]

theorem foldl_processRow (ds dF : String) (vF : List String) (now : String)
    (idx : List (Val × Entity)) (rows : List Row) (acc : DiffAcc) :
    rows.foldl (processRow ds dF vF now idx) acc =
      ⟨acc.newRecords ++ rows.filterMap (rowNew ds dF idx),
       acc.updates ++ rows.filterMap (rowUpd ds dF vF now idx),
       acc.revisions ++ rows.flatMap (rowRevs ds dF vF now idx)⟩ := by
  induction rows generalizing acc with
  | nil => simp
  | cons r rows ih =>
    rw [List.foldl_cons, processRow_eq, ih]
    cases hn : rowNew ds dF idx r <;>
      cases hu : rowUpd ds dF vF now idx r <;>
        simp [hn, hu, List.filterMap_cons, List.flatMap_cons]

theorem smart_update_run (beh : ConnBehavior) (ds : String) (df : List Row)
    (dF : String) (vF : List String) (normDate : Val → String)
    (now : String) (hne : df ≠ [])
    (hdate : ∀ r ∈ df, (lookupA r dF).isSome)
    (hok : beh.createTableOk = true) :
    smart_update beh ds df dF vF normDate now =
      some { counts :=
               ⟨groupCount (runNewL beh ds df dF normDate) beh.newOk,
                groupCount (runUpdL beh ds df dF vF normDate now)
                  beh.updatedOk,
                groupCount (runRevL beh ds df dF vF normDate now)
                  beh.revisionsOk⟩,
             dfAfter := runDf2 dF normDate df,
             createCalled := true, fetchCalled := true,
             newWrites := groupWrite (runNewL beh ds df dF normDate),
             updWrites :=
               groupWrite (runUpdL beh ds df dF vF normDate now),
             revWrites :=
               groupWrite (runRevL beh ds df dF vF normDate now) } := by
  have hempty : ¬ (df.isEmpty = true) := by
    simpa [List.isEmpty_iff] using hne
  have hall : ¬ ¬ (df.all (fun r => (lookupA r dF).isSome) = true) := by
    rw [not_not, List.all_eq_true]
    exact hdate
  simp only [smart_update, if_neg hempty, if_neg hall]
  rw [foldl_processRow, hok]
  simp [runNewL, runUpdL, runRevL, runDf2, runIdx, groupCount, groupWrite]

theorem smart_update_nil (beh : ConnBehavior) (ds dF : String)
    (vF : List String) (normDate : Val → String) (now : String) :
    smart_update beh ds [] dF vF normDate now =
      some { counts := ⟨0, 0, 0⟩, dfAfter := [], createCalled := false,
             fetchCalled := false, newWrites := none, updWrites := none,
             revWrites := none } := rfl

theorem smart_update_create_fail (beh : ConnBehavior) (ds : String)
    (df : List Row) (dF : String) (vF : List String)
    (normDate : Val → String) (now : String) (hne : df ≠ [])
    (hdate : ∀ r ∈ df, (lookupA r dF).isSome)
    (hcf : beh.createTableOk = false) :
    smart_update beh ds df dF vF normDate now =
      some { counts := ⟨0, 0, 0⟩, dfAfter := runDf2 dF normDate df,
             createCalled := true, fetchCalled := false, newWrites := none,
             updWrites := none, revWrites := none } := by
  have hempty : ¬ (df.isEmpty = true) := by
    simpa [List.isEmpty_iff] using hne
  have hall : ¬ ¬ (df.all (fun r => (lookupA r dF).isSome) = true) := by
    rw [not_not, List.all_eq_true]
    exact hdate
  simp only [smart_update, if_neg hempty, if_neg hall]
  rw [hcf]
  simp [runDf2]

theorem smart_update_no_date_none (beh : ConnBehavior) (ds : String)
    (df : List Row) (dF : String) (vF : List String)
    (normDate : Val → String) (now : String) (hne : df ≠ [])
    (hnall : ¬ ∀ r ∈ df, (lookupA r dF).isSome) :
    smart_update beh ds df dF vF normDate now = none := by
  have hempty : ¬ (df.isEmpty = true) := by
    simpa [List.isEmpty_iff] using hne
  have hall : ¬ (df.all (fun r => (lookupA r dF).isSome) = true) := by
    rw [List.all_eq_true]
    exact hnall
  simp only [smart_update, if_neg hempty, if_pos hall]

theorem smart_update_fetch_swallow (beh : ConnBehavior) (ds : String)
    (df : List Row) (dF : String) (vF : List String)
    (normDate : Val → String) (now : String) (u : Unit)
    (hu : beh.fetchResult = Except.error u) :
    smart_update beh ds df dF vF normDate now =
      smart_update { beh with fetchResult := Except.ok [] } ds df dF vF
        normDate now := by
  simp only [smart_update, hu]
  rfl

/-- Claim C9: when the incoming record batch is empty, `smart_update`
returns `{new: 0, updated: 0, revisions: 0}` and performs no storage
operation of any kind — no `create_table` call, no entity query, no
`batch_upsert` call — leaving the caller's DataFrame and all stored state
unchanged. -/
theorem smart_update_empty_input_noop (beh : ConnBehavior) (ds dF : String)
    (vF : List String) (normDate : Val → String) (now : String) :
    smart_update beh ds [] dF vF normDate now =
      some { counts := ⟨0, 0, 0⟩, dfAfter := [], createCalled := false,
             fetchCalled := false, newWrites := none, updWrites := none,
             revWrites := none } :=
  smart_update_nil beh ds dF vF normDate now

/-- Claim C3, counterexample: with a recorded last run and
`min_interval_hours = 24`, at exactly 24 elapsed hours the code returns
`true`, although the elapsed time does not exceed the interval, so the
claimed "false otherwise" fails at this input. -/
theorem should_update_boundary_counterexample :
    should_update (some 0) 86400 24 = true ∧
      ¬ shouldRunSpec (some 0) 86400 24 := by
  constructor
  · simp only [should_update, decide_eq_true_eq]
    norm_num
  · rintro (h | ⟨t, ht, hgt⟩)
    · exact Option.noConfusion h
    · rw [Option.some.injEq] at ht
      rw [← ht] at hgt
      norm_num at hgt

/-- Claim C3, amended: `should_update` returns true when no prior successful
run is recorded, or when the elapsed hours since the last recorded success
are at least (not strictly more than) `update_frequency_hours`, and false
otherwise; in particular with a 24-hour interval it returns false at 23
elapsed hours and true at 25 elapsed hours. -/
theorem should_update_spec (lastRun : Option ℚ) (now freq : ℚ) :
    (should_update lastRun now freq = true ↔
      lastRun = none ∨ ∃ t, lastRun = some t ∧ (now - t) / 3600 ≥ freq) ∧
    should_update (some 0) (23 * 3600) 24 = false ∧
    should_update (some 0) (25 * 3600) 24 = true := by
  refine ⟨?_, ?_, ?_⟩
  · cases lastRun with
    | none => simp [should_update]
    | some t => simp [should_update]
  · simp only [should_update, decide_eq_false_iff_not]
    norm_num
  · simp only [should_update, decide_eq_true_eq]
    norm_num

/-- Claim C2, counterexample: when the fetch of existing records fails (the
raw query raises and `query_entities` returns the empty list), a one-record
input is not aborted: the run classifies the record as new, issues the
record write, and returns `new = 1`, not all-zero counts. -/
theorem smart_update_fetch_failure_not_aborted :
    (smart_update ⟨true, Except.error (), true, true, true⟩ "tbl"
        [[("obs_date", Val.str "2024-01-01"), ("sales", Val.num 5)]]
        "obs_date" ["sales"] (fun _ => "2024-01-01") "TS").map
      (fun out => (out.counts, out.newWrites.isSome)) =
      some (⟨1, 0, 0⟩, true) := rfl

/-- Claim C2, amended: if the idempotent table creation fails,
`smart_update` aborts the run and returns all-zero counts without issuing
any record or revision write; if the fetch of existing records fails, the
error is swallowed inside `query_entities` and the run proceeds exactly as
if the stored record set were empty (so incoming records are classified as
new and written). -/
theorem smart_update_failure_semantics (beh : ConnBehavior) (ds : String)
    (df : List Row) (dF : String) (vF : List String)
    (normDate : Val → String) (now : String) :
    (beh.createTableOk = false → df ≠ [] →
      (∀ r ∈ df, (lookupA r dF).isSome) →
      smart_update beh ds df dF vF normDate now =
        some { counts := ⟨0, 0, 0⟩, dfAfter := runDf2 dF normDate df,
               createCalled := true, fetchCalled := false,
               newWrites := none, updWrites := none, revWrites := none }) ∧
    (∀ u : Unit, beh.fetchResult = Except.error u →
      smart_update beh ds df dF vF normDate now =
        smart_update { beh with fetchResult := Except.ok [] } ds df dF vF
          normDate now) := by
  constructor
  · intro hcf hne hdate
    exact smart_update_create_fail beh ds df dF vF normDate now hne hdate hcf
  · intro u hu
    exact smart_update_fetch_swallow beh ds df dF vF normDate now u hu

/-- Witness for the amended claim C2, at a concrete one-row input: the
create-failure branch returns the all-zero abort output, and a run with a
failing fetch equals the run with an empty fetched record set. -/
theorem smart_update_failure_semantics_witness :
    smart_update ⟨false, Except.ok [], true, true, true⟩ "tbl"
        [[("obs_date", Val.str "d")]] "obs_date" [] (fun _ => "d") "TS" =
      some { counts := ⟨0, 0, 0⟩,
             dfAfter := runDf2 "obs_date" (fun _ => "d")
               [[("obs_date", Val.str "d")]],
             createCalled := true, fetchCalled := false, newWrites := none,
             updWrites := none, revWrites := none } ∧
    smart_update ⟨true, Except.error (), true, true, true⟩ "tbl"
        [[("obs_date", Val.str "d")]] "obs_date" [] (fun _ => "d") "TS" =
      smart_update ⟨true, Except.ok [], true, true, true⟩ "tbl"
        [[("obs_date", Val.str "d")]] "obs_date" [] (fun _ => "d") "TS" := by
  constructor
  · exact (smart_update_failure_semantics ⟨false, Except.ok [], true, true,
      true⟩ "tbl" [[("obs_date", Val.str "d")]] "obs_date" []
      (fun _ => "d") "TS").1 rfl (by simp) (by decide)
  · exact (smart_update_failure_semantics ⟨true, Except.error (), true,
      true, true⟩ "tbl" [[("obs_date", Val.str "d")]] "obs_date" []
      (fun _ => "d") "TS").2 () rfl

theorem smart_update_some_cases (beh : ConnBehavior) (ds : String)
    (df : List Row) (dF : String) (vF : List String)
    (normDate : Val → String) (now : String) (out : SUOutput)
    (h : smart_update beh ds df dF vF normDate now = some out) :
    (df = [] ∧ out =
      { counts := ⟨0, 0, 0⟩, dfAfter := df, createCalled := false,
        fetchCalled := false, newWrites := none, updWrites := none,
        revWrites := none }) ∨
    (df ≠ [] ∧ (∀ r ∈ df, (lookupA r dF).isSome) ∧
      beh.createTableOk = false ∧ out =
      { counts := ⟨0, 0, 0⟩, dfAfter := runDf2 dF normDate df,
        createCalled := true, fetchCalled := false, newWrites := none,
        updWrites := none, revWrites := none }) ∨
    (df ≠ [] ∧ (∀ r ∈ df, (lookupA r dF).isSome) ∧
      beh.createTableOk = true ∧ out =
      { counts := ⟨groupCount (runNewL beh ds df dF normDate) beh.newOk,
                   groupCount (runUpdL beh ds df dF vF normDate now)
                     beh.updatedOk,
                   groupCount (runRevL beh ds df dF vF normDate now)
                     beh.revisionsOk⟩,
        dfAfter := runDf2 dF normDate df, createCalled := true,
        fetchCalled := true,
        newWrites := groupWrite (runNewL beh ds df dF normDate),
        updWrites := groupWrite (runUpdL beh ds df dF vF normDate now),
        revWrites := groupWrite (runRevL beh ds df dF vF normDate now) }) := by
  by_cases hne : df = []
  · subst hne
    rw [smart_update_nil] at h
    exact Or.inl ⟨rfl, (Option.some.inj h).symm⟩
  · by_cases hdate : ∀ r ∈ df, (lookupA r dF).isSome
    · cases hok : beh.createTableOk with
      | false =>
        rw [smart_update_create_fail beh ds df dF vF normDate now hne hdate
          hok] at h
        exact Or.inr (Or.inl ⟨hne, hdate, rfl, (Option.some.inj h).symm⟩)
      | true =>
        rw [smart_update_run beh ds df dF vF normDate now hne hdate hok] at h
        exact Or.inr (Or.inr ⟨hne, hdate, rfl, (Option.some.inj h).symm⟩)
    · rw [smart_update_no_date_none beh ds df dF vF normDate now hne hdate]
        at h
      exact Option.noConfusion h

theorem groupCount_eq_match (l : List Entity) (ok : Bool) :
    groupCount l ok =
      (match groupWrite l with
       | some g => if ok then g.length else 0
       | none => 0) := by
  unfold groupCount groupWrite
  by_cases h : l.isEmpty <;> simp [h]

/-- Claim C10: for every non-empty input, `smart_update` mutates the
caller's DataFrame in place: after the call the argument frame (the
`dfAfter` component of the modelled outcome) is the normalized frame, and
its date column holds the normalized string form of each original date
value. -/
theorem smart_update_normalizes_dates_in_place (beh : ConnBehavior)
    (ds : String) (df : List Row) (dF : String) (vF : List String)
    (normDate : Val → String) (now : String) (out : SUOutput)
    (hne : df ≠ [])
    (h : smart_update beh ds df dF vF normDate now = some out) :
    out.dfAfter = runDf2 dF normDate df ∧
    ∀ r ∈ df, ∀ v, lookupA r dF = some v →
      lookupA (normalizeRow dF normDate r) dF =
        some (Val.str (normDate v)) := by
  constructor
  · rcases smart_update_some_cases beh ds df dF vF normDate now out h with
      ⟨hdf, rfl⟩ | ⟨_, _, _, rfl⟩ | ⟨_, _, _, rfl⟩
    · exact absurd hdf hne
    · rfl
    · rfl
  · intro r _ v hv
    unfold normalizeRow
    rw [hv, lookupA_setA]
    simp

/-- Witness for claim C10 at a concrete one-row input: the returned frame is
the normalized frame and the date cell holds the normalized string. -/
theorem smart_update_normalizes_dates_witness :
    ({ counts := ⟨0, 0, 0⟩,
       dfAfter := [[("obs_date", Val.str "x")]], createCalled := true,
       fetchCalled := false, newWrites := none, updWrites := none,
       revWrites := none } : SUOutput).dfAfter =
        runDf2 "obs_date" (fun _ => "x") [[("obs_date", Val.str "x")]] ∧
    ∀ r ∈ [[("obs_date", Val.str "x")]], ∀ v,
      lookupA r "obs_date" = some v →
      lookupA (normalizeRow "obs_date" (fun _ => "x") r) "obs_date" =
        some (Val.str "x") :=
  smart_update_normalizes_dates_in_place
    ⟨false, Except.ok [], true, true, true⟩ "tbl"
    [[("obs_date", Val.str "x")]] "obs_date" [] (fun _ => "x") "TS" _
    (by simp) rfl

/-- Claim C8: the three write groups are attempted independently — whether a
group's `batch_upsert` is issued, and with which entities, does not depend
on the success flags of any group — and each returned count equals the size
of its group when that group's batched write reported success, and `0` when
it reported failure (or when the group was empty and no write was made). -/
theorem smart_update_write_groups (beh : ConnBehavior) (ds : String)
    (df : List Row) (dF : String) (vF : List String)
    (normDate : Val → String) (now : String) (out : SUOutput)
    (h : smart_update beh ds df dF vF normDate now = some out) :
    (out.counts.new =
      (match out.newWrites with
       | some g => if beh.newOk then g.length else 0
       | none => 0)) ∧
    (out.counts.updated =
      (match out.updWrites with
       | some g => if beh.updatedOk then g.length else 0
       | none => 0)) ∧
    (out.counts.revisions =
      (match out.revWrites with
       | some g => if beh.revisionsOk then g.length else 0
       | none => 0)) ∧
    ∀ beh2 : ConnBehavior, beh2.createTableOk = beh.createTableOk →
      beh2.fetchResult = beh.fetchResult →
      ∃ out2, smart_update beh2 ds df dF vF normDate now = some out2 ∧
        out2.newWrites = out.newWrites ∧ out2.updWrites = out.updWrites ∧
        out2.revWrites = out.revWrites := by
  rcases smart_update_some_cases beh ds df dF vF normDate now out h with
    ⟨hdf, rfl⟩ | ⟨hne, hdate, hcf, rfl⟩ | ⟨hne, hdate, hok, rfl⟩
  · subst hdf
    exact ⟨rfl, rfl, rfl, fun beh2 _ _ =>
      ⟨_, smart_update_nil beh2 ds dF vF normDate now, rfl, rfl, rfl⟩⟩
  · refine ⟨rfl, rfl, rfl, fun beh2 hc hf => ?_⟩
    exact ⟨_, smart_update_create_fail beh2 ds df dF vF normDate now hne
      hdate (hc.trans hcf), rfl, rfl, rfl⟩
  · refine ⟨groupCount_eq_match _ _, groupCount_eq_match _ _,
      groupCount_eq_match _ _, fun beh2 hc hf => ?_⟩
    have hidx : runIdx beh2 dF = runIdx beh dF := by
      unfold runIdx
      rw [hf]
    have hnew : runNewL beh2 ds df dF normDate =
        runNewL beh ds df dF normDate := by
      unfold runNewL
      rw [hidx]
    have hupd : runUpdL beh2 ds df dF vF normDate now =
        runUpdL beh ds df dF vF normDate now := by
      unfold runUpdL
      rw [hidx]
    have hrev : runRevL beh2 ds df dF vF normDate now =
        runRevL beh ds df dF vF normDate now := by
      unfold runRevL
      rw [hidx]
    refine ⟨_, smart_update_run beh2 ds df dF vF normDate now hne hdate
      (hc.trans hok), ?_, ?_, ?_⟩ <;> simp [hnew, hupd, hrev]

/-- Witness for claim C8 at a concrete input (one new record, all writes
succeeding): counts match the write groups and the groups are stable under
changing the success flags. -/
theorem smart_update_write_groups_witness :
    (let out : SUOutput :=
      { counts := ⟨1, 0, 0⟩,
        dfAfter := [[("obs_date", Val.str "d"), ("sales", Val.num 5)]],
        createCalled := true, fetchCalled := true,
        newWrites := some [mkEntity "tbl" "d"
          [("obs_date", Val.str "d"), ("sales", Val.num 5)]],
        updWrites := none, revWrites := none };
     (out.counts.new =
       (match out.newWrites with
        | some g => if true then g.length else 0
        | none => 0)) ∧
     (out.counts.updated =
       (match out.updWrites with
        | some g => if true then g.length else 0
        | none => 0)) ∧
     (out.counts.revisions =
       (match out.revWrites with
        | some g => if true then g.length else 0
        | none => 0)) ∧
     ∀ beh2 : ConnBehavior, beh2.createTableOk = true →
       beh2.fetchResult = Except.ok [] →
       ∃ out2, smart_update beh2 "tbl"
           [[("obs_date", Val.str "d"), ("sales", Val.num 5)]] "obs_date"
           ["sales"] (fun _ => "d") "TS" = some out2 ∧
         out2.newWrites = out.newWrites ∧ out2.updWrites = out.updWrites ∧
         out2.revWrites = out.revWrites) :=
  smart_update_write_groups ⟨true, Except.ok [], true, true, true⟩ "tbl"
    [[("obs_date", Val.str "d"), ("sales", Val.num 5)]] "obs_date"
    ["sales"] (fun _ => "d") "TS" _ rfl

theorem lookupA_mkRevision_dataDate (ds rd f : String) (ov nv : ℚ)
    (now : String) :
    lookupA (mkRevision ds rd f ov nv now) "data_date" =
      some (Val.str rd) := rfl

theorem lookupA_mkRevision_valueField (ds rd f : String) (ov nv : ℚ)
    (now : String) :
    lookupA (mkRevision ds rd f ov nv now) "value_field" =
      some (Val.str f) := rfl

theorem revCount_nil (d f : String) : revCount [] d f = 0 := rfl

theorem revCount_cons (e : Entity) (l : List Entity) (d f : String) :
    revCount (e :: l) d f =
      (if lookupA e "data_date" == some (Val.str d) &&
          lookupA e "value_field" == some (Val.str f) then 1 else 0) +
        revCount l d f := by
  simp only [revCount, List.filter_cons]
  split
  · simp [Nat.add_comm]
  · simp

theorem revCount_append (l₁ l₂ : List Entity) (d f : String) :
    revCount (l₁ ++ l₂) d f = revCount l₁ d f + revCount l₂ d f := by
  simp [revCount, List.filter_append]

theorem revCount_filterMap (row : Row) (existingRow : Entity)
    (ds rd now : String) (vF : List String) (hnd : vF.Nodup)
    (d f : String) :
    revCount (vF.filterMap (fun field =>
        (diffField row existingRow field).map (fun p =>
          mkRevision ds rd field p.1 p.2 now))) d f =
      if rd = d ∧ f ∈ vF ∧ (diffField row existingRow f).isSome then 1
      else 0 := by
  induction vF with
  | nil => simp [revCount_nil]
  | cons g vF ih =>
    rw [List.nodup_cons] at hnd
    obtain ⟨hg, hnd'⟩ := hnd
    rw [List.filterMap_cons]
    cases hd : diffField row existingRow g with
    | none =>
      simp only [Option.map_none']
      rw [ih hnd']
      by_cases hfg : f = g
      · subst hfg
        simp [hd]
      · simp [List.mem_cons, hfg]
    | some p =>
      simp only [Option.map_some']
      rw [revCount_cons, ih hnd', lookupA_mkRevision_dataDate,
        lookupA_mkRevision_valueField]
      by_cases hrd : rd = d
      · subst hrd
        by_cases hfg : f = g
        · subst hfg
          simp [hg, hd]
        · have hgf : ¬ g = f := fun e => hfg e.symm
          simp [List.mem_cons, hfg, hgf]
      · simp [hrd]

/-- Claim C4: for a tracked field of a record whose date already exists,
with both values numeric, an absolute difference of exactly `0.001` is not a
change — the field comparison yields nothing, and no revision for that
`(date, field)` is emitted — while a difference of `0.0011` yields exactly
one revision for that field and marks the record changed (so it will be
written as an update). -/
theorem tolerance_boundary (ds dF : String) (vF : List String)
    (now : String) (idx : List (Val × Entity)) (row : Row)
    (existingRow : Entity) (f : String) (nv ov : ℚ)
    (hidx : lookupA idx (Val.str (rowDate dF row)) = some existingRow)
    (hn : lookupA row f = some (Val.num nv))
    (ho : lookupA existingRow f = some (Val.num ov))
    (hnd : vF.Nodup) (hf : f ∈ vF) :
    (|nv - ov| = 1 / 1000 →
      diffField row existingRow f = none ∧
      revCount (rowRevs ds dF vF now idx row) (rowDate dF row) f = 0) ∧
    (|nv - ov| = 11 / 10000 →
      diffField row existingRow f = some (ov, nv) ∧
      revCount (rowRevs ds dF vF now idx row) (rowDate dF row) f = 1 ∧
      rowRevs ds dF vF now idx row ≠ []) := by
  have hrevs := rowRevs_of_present ds dF vF now idx row existingRow hidx
  constructor
  · intro heq
    have hdiff : diffField row existingRow f = none := by
      simp [diffField, hn, ho, isna, toFloat]
      rw [heq]
      norm_num
    refine ⟨hdiff, ?_⟩
    rw [hrevs, revCount_filterMap row existingRow ds (rowDate dF row) now
      vF hnd]
    simp [hdiff]
  · intro heq
    have hdiff : diffField row existingRow f = some (ov, nv) := by
      simp [diffField, hn, ho, isna, toFloat]
      rw [heq]
      norm_num
    refine ⟨hdiff, ?_, ?_⟩
    · rw [hrevs, revCount_filterMap row existingRow ds (rowDate dF row) now
        vF hnd]
      simp [hdiff, hf]
    · intro hcon
      have h1 : revCount (rowRevs ds dF vF now idx row)
          (rowDate dF row) f = 1 := by
        rw [hrevs, revCount_filterMap row existingRow ds (rowDate dF row)
          now vF hnd]
        simp [hdiff, hf]
      rw [hcon, revCount_nil] at h1
      exact Nat.noConfusion h1

/-- Witness for claim C4 at a concrete record: stored value `5`, incoming
value `5 + 11/10000`, tracked field `rate` of a one-field list. -/
theorem tolerance_boundary_witness :
    ((|(5 + 11 / 10000 : ℚ) - 5| = 1 / 1000 →
      diffField [("date", Val.str "d"), ("rate", Val.num (5 + 11 / 10000))]
          [("rate", Val.num 5)] "rate" = none ∧
      revCount (rowRevs "tbl" "date" ["rate"] "TS"
          [(Val.str "d", [("rate", Val.num 5)])]
          [("date", Val.str "d"), ("rate", Val.num (5 + 11 / 10000))])
        (rowDate "date"
          [("date", Val.str "d"), ("rate", Val.num (5 + 11 / 10000))])
        "rate" = 0) ∧
    (|(5 + 11 / 10000 : ℚ) - 5| = 11 / 10000 →
      diffField [("date", Val.str "d"), ("rate", Val.num (5 + 11 / 10000))]
          [("rate", Val.num 5)] "rate" = some (5, 5 + 11 / 10000) ∧
      revCount (rowRevs "tbl" "date" ["rate"] "TS"
          [(Val.str "d", [("rate", Val.num 5)])]
          [("date", Val.str "d"), ("rate", Val.num (5 + 11 / 10000))])
        (rowDate "date"
          [("date", Val.str "d"), ("rate", Val.num (5 + 11 / 10000))])
        "rate" = 1 ∧
      rowRevs "tbl" "date" ["rate"] "TS"
        [(Val.str "d", [("rate", Val.num 5)])]
        [("date", Val.str "d"), ("rate", Val.num (5 + 11 / 10000))] ≠ [])) :=
  tolerance_boundary "tbl" "date" ["rate"] "TS"
    [(Val.str "d", [("rate", Val.num 5)])]
    [("date", Val.str "d"), ("rate", Val.num (5 + 11 / 10000))]
    [("rate", Val.num 5)] "rate" (5 + 11 / 10000) 5 rfl rfl rfl
    (by simp) (by simp)

/-- Claim C6: for a record whose date exists, a tracked field whose incoming
or stored value is null/NaN or not parseable as a float is skipped — the
comparison reports no change and emits no revision — and such values never
make the run fail: `smart_update` still returns a result for every
well-formed non-empty input. -/
theorem null_and_unparseable_fields_skipped :
    (∀ (row : Row) (existingRow : Entity) (f : String) (v : Val),
      lookupA row f = some v → (isna v = true ∨ toFloat v = none) →
      diffField row existingRow f = none) ∧
    (∀ (row : Row) (existingRow : Entity) (f : String) (v : Val),
      lookupA existingRow f = some v → (isna v = true ∨ toFloat v = none) →
      diffField row existingRow f = none) ∧
    (∀ (beh : ConnBehavior) (ds : String) (df : List Row) (dF : String)
      (vF : List String) (normDate : Val → String) (now : String),
      df ≠ [] → (∀ r ∈ df, (lookupA r dF).isSome) →
      (smart_update beh ds df dF vF normDate now).isSome = true) := by
  refine ⟨?_, ?_, ?_⟩
  · intro row existingRow f v hv hskip
    simp only [diffField, hv]
    cases ho : lookupA existingRow f with
    | none => rfl
    | some w =>
      cases v with
      | num q =>
        rcases hskip with hnan | hfl
        · exact absurd hnan (by simp [isna])
        · exact absurd hfl (by simp [toFloat])
      | nan => simp [isna]
      | str s => cases w <;> simp [isna, toFloat]
  · intro row existingRow f v hv hskip
    simp only [diffField, hv]
    cases hn : lookupA row f with
    | none => rfl
    | some w =>
      cases v with
      | num q =>
        rcases hskip with hnan | hfl
        · exact absurd hnan (by simp [isna])
        · exact absurd hfl (by simp [toFloat])
      | nan => simp [isna]
      | str s => cases w <;> simp [isna, toFloat]
  · intro beh ds df dF vF normDate now hne hdate
    cases hok : beh.createTableOk with
    | true =>
      rw [smart_update_run beh ds df dF vF normDate now hne hdate hok]
      rfl
    | false =>
      rw [smart_update_create_fail beh ds df dF vF normDate now hne hdate
        hok]
      rfl

/-- Witness for claim C6 at concrete values: a NaN incoming cell, a
non-numeric stored cell, and a NaN-carrying one-row run that still
completes. -/
theorem null_and_unparseable_witness :
    diffField [("v", Val.nan)] [("v", Val.num 1)] "v" = none ∧
    diffField [("v", Val.num 1)] [("v", Val.str "not a number")] "v" =
      none ∧
    (smart_update ⟨true, Except.ok [], true, true, true⟩ "tbl"
        [[("obs_date", Val.str "d"), ("v", Val.nan)]] "obs_date" ["v"]
        (fun _ => "d") "TS").isSome = true :=
  ⟨null_and_unparseable_fields_skipped.1 [("v", Val.nan)]
      [("v", Val.num 1)] "v" Val.nan rfl (Or.inl rfl),
   null_and_unparseable_fields_skipped.2.1 [("v", Val.num 1)]
      [("v", Val.str "not a number")] "v" (Val.str "not a number") rfl
      (Or.inr rfl),
   null_and_unparseable_fields_skipped.2.2
      ⟨true, Except.ok [], true, true, true⟩ "tbl"
      [[("obs_date", Val.str "d"), ("v", Val.nan)]] "obs_date" ["v"]
      (fun _ => "d") "TS" (by simp) (by decide)⟩

theorem groupWrite_getD (l : List Entity) : (groupWrite l).getD [] = l := by
  unfold groupWrite
  by_cases h : l.isEmpty = true
  · simp [h, List.isEmpty_iff.mp h]
  · simp [h]

theorem revCount_rowRevs_le_one (ds dF : String) (vF : List String)
    (now : String) (idx : List (Val × Entity)) (row : Row)
    (hnd : vF.Nodup) (d f : String) :
    revCount (rowRevs ds dF vF now idx row) d f ≤ 1 := by
  cases hidx : lookupA idx (Val.str (rowDate dF row)) with
  | none =>
    rw [rowRevs_of_absent ds dF vF now idx row hidx, revCount_nil]
    exact Nat.zero_le 1
  | some existingRow =>
    rw [rowRevs_of_present ds dF vF now idx row existingRow hidx,
      revCount_filterMap row existingRow ds (rowDate dF row) now vF hnd]
    split <;> simp

theorem revCount_rowRevs_other_date (ds dF : String) (vF : List String)
    (now : String) (idx : List (Val × Entity)) (row : Row)
    (hnd : vF.Nodup) (d f : String) (hne : rowDate dF row ≠ d) :
    revCount (rowRevs ds dF vF now idx row) d f = 0 := by
  cases hidx : lookupA idx (Val.str (rowDate dF row)) with
  | none => rw [rowRevs_of_absent ds dF vF now idx row hidx, revCount_nil]
  | some existingRow =>
    rw [rowRevs_of_present ds dF vF now idx row existingRow hidx,
      revCount_filterMap row existingRow ds (rowDate dF row) now vF hnd]
    simp [hne]

theorem revCount_flatMap_zero (ds dF : String) (vF : List String)
    (now : String) (idx : List (Val × Entity)) (rows : List Row)
    (hnd : vF.Nodup) (d f : String)
    (h : ∀ r ∈ rows, rowDate dF r ≠ d) :
    revCount (rows.flatMap (rowRevs ds dF vF now idx)) d f = 0 := by
  induction rows with
  | nil => rfl
  | cons r rows ih =>
    rw [List.flatMap_cons, revCount_append,
      revCount_rowRevs_other_date ds dF vF now idx r hnd d f
        (h r (List.mem_cons_self r rows)),
      ih (fun r' hr' => h r' (List.mem_cons_of_mem r hr'))]

theorem revCount_flatMap_le_one (ds dF : String) (vF : List String)
    (now : String) (idx : List (Val × Entity)) (rows : List Row)
    (hnd : vF.Nodup) (hdates : (rows.map (rowDate dF)).Nodup)
    (d f : String) :
    revCount (rows.flatMap (rowRevs ds dF vF now idx)) d f ≤ 1 := by
  induction rows with
  | nil => exact Nat.zero_le 1
  | cons r rows ih =>
    rw [List.map_cons, List.nodup_cons] at hdates
    obtain ⟨hr, hdates'⟩ := hdates
    rw [List.flatMap_cons, revCount_append]
    by_cases hd : rowDate dF r = d
    · have hz : revCount (rows.flatMap (rowRevs ds dF vF now idx)) d f =
          0 := by
        refine revCount_flatMap_zero ds dF vF now idx rows hnd d f ?_
        intro r' hr' he
        refine hr ?_
        rw [hd, ← he]
        exact List.mem_map_of_mem (rowDate dF) hr'
      rw [hz]
      simpa using revCount_rowRevs_le_one ds dF vF now idx r hnd d f
    · rw [revCount_rowRevs_other_date ds dF vF now idx r hnd d f hd]
      simpa using ih hdates'

/-- Claim C5: within any single `smart_update` call on a deduplicated batch
(distinct normalized dates, distinct tracked fields), the revision entries
written for any given `(date, field)` pair number 0 or 1, never more. -/
theorem at_most_one_revision_per_field (beh : ConnBehavior) (ds : String)
    (df : List Row) (dF : String) (vF : List String)
    (normDate : Val → String) (now : String) (out : SUOutput)
    (h : smart_update beh ds df dF vF normDate now = some out)
    (hnd : vF.Nodup)
    (hdates : ((runDf2 dF normDate df).map (rowDate dF)).Nodup) :
    ∀ d f, revCount (out.revWrites.getD []) d f ≤ 1 := by
  intro d f
  rcases smart_update_some_cases beh ds df dF vF normDate now out h with
    ⟨_, rfl⟩ | ⟨_, _, _, rfl⟩ | ⟨_, _, _, rfl⟩
  · exact Nat.zero_le 1
  · exact Nat.zero_le 1
  · rw [groupWrite_getD]
    exact revCount_flatMap_le_one ds dF vF now (runIdx beh dF)
      (runDf2 dF normDate df) hnd hdates d f

/-- Witness for claim C5 at a concrete one-row run (a new record; the
revision group is empty, so every pair has count 0). -/
theorem at_most_one_revision_witness :
    revCount
      ((({ counts := ⟨1, 0, 0⟩,
           dfAfter := [[("date", Val.str "d"), ("v", Val.num 5)]],
           createCalled := true, fetchCalled := true,
           newWrites := some [mkEntity "tbl" "d"
             [("date", Val.str "d"), ("v", Val.num 5)]],
           updWrites := none, revWrites := none } : SUOutput).revWrites).getD
        []) "d" "v" ≤ 1 :=
  at_most_one_revision_per_field ⟨true, Except.ok [], true, true, true⟩
    "tbl" [[("date", Val.str "d"), ("v", Val.num 5)]] "date" ["v"]
    (fun _ => "d") "TS" _ rfl (by simp) (by simp [runDf2]) "d" "v"

theorem chLe_cons_iff (a b : Char) (as bs : List Char) :
    chLe (a :: as) (b :: bs) = true ↔
      a < b ∨ (a = b ∧ chLe as bs = true) := by
  rcases lt_trichotomy a b with h | h | h
  · simp [chLe, h]
  · subst h
    simp [chLe, lt_irrefl]
  · have h1 : ¬ a < b := lt_asymm h
    have h2 : a ≠ b := ne_of_gt h
    simp [chLe, h, h1, h2]

theorem chLe_total : ∀ as bs : List Char, (chLe as bs || chLe bs as) = true := by
  intro as
  induction as with
  | nil => intro bs; simp [chLe]
  | cons a as ih =>
    intro bs
    cases bs with
    | nil => simp [chLe]
    | cons b bs =>
      rcases lt_trichotomy a b with h | h | h
      · simp [chLe, h]
      · subst h
        simp only [chLe, lt_irrefl, if_false]
        exact ih bs
      · simp [chLe, h, lt_asymm h]

theorem chLe_trans : ∀ as bs cs : List Char, chLe as bs = true →
    chLe bs cs = true → chLe as cs = true := by
  intro as
  induction as with
  | nil => intro bs cs _ _; rfl
  | cons a as ih =>
    intro bs cs h1 h2
    cases bs with
    | nil => simp [chLe] at h1
    | cons b bs =>
      cases cs with
      | nil => simp [chLe] at h2
      | cons c cs =>
        rw [chLe_cons_iff] at h1 h2 ⊢
        rcases h1 with hab | ⟨hab, h1r⟩
        · rcases h2 with hbc | ⟨hbc, _⟩
          · exact Or.inl (lt_trans hab hbc)
          · exact Or.inl (hbc ▸ hab)
        · rcases h2 with hbc | ⟨hbc, h2r⟩
          · exact Or.inl (hab ▸ hbc)
          · exact Or.inr ⟨hab.trans hbc, ih bs cs h1r h2r⟩

theorem revDescLe_total : ∀ a b : Entity,
    (revDescLe a b || revDescLe b a) = true := by
  intro a b
  unfold revDescLe strLe
  rw [Bool.or_comm]
  exact chLe_total _ _

theorem revDescLe_trans : ∀ a b c : Entity, revDescLe a b = true →
    revDescLe b c = true → revDescLe a c = true := by
  intro a b c h1 h2
  unfold revDescLe strLe at h1 h2 ⊢
  exact chLe_trans _ _ _ h2 h1

theorem lookupA_renamed_filterMap (e : Entity) (ks : List String)
    (k' : String)
    (hk : ∀ k ∈ ks,
      ((if k == "PartitionKey" then "dataset" else k) = k') ↔ k = k') :
    lookupA (ks.filterMap (fun k => (lookupA e k).map
        (fun v => (if k == "PartitionKey" then "dataset" else k, v)))) k' =
      if k' ∈ ks ∧ (lookupA e k').isSome then lookupA e k' else none := by
  induction ks with
  | nil => simp [lookupA_nil]
  | cons k ks ih =>
    have hk0 := hk k (List.mem_cons_self k ks)
    have hkr := fun g hg => hk g (List.mem_cons_of_mem k hg)
    rw [List.filterMap_cons]
    cases hv : lookupA e k with
    | none =>
      simp only [Option.map_none']
      rw [ih hkr]
      by_cases hkk : k' = k
      · subst hkk
        simp [hv]
      · simp [List.mem_cons, hkk]
    | some v =>
      simp only [Option.map_some']
      rw [lookupA_cons, ih hkr]
      by_cases hkk : k' = k
      · subst hkk
        have hb : ((if k' == "PartitionKey" then "dataset" else k') ==
            k') = true := by
          rw [beq_iff_eq]
          exact hk0.mpr rfl
        rw [if_pos hb]
        simp [hv]
      · have hbp : ¬ ((if k = "PartitionKey" then "dataset" else k) =
            k') := by
          simp only [beq_iff_eq] at hk0
          intro he
          exact hkk (hk0.mp he).symm
        simp [List.mem_cons, hkk, hbp]

theorem revKey_projectRevision (e : Entity) :
    revKey (projectRevision e) = revKey e := by
  unfold revKey
  have h : lookupA (projectRevision e) "revision_date" =
      lookupA e "revision_date" := by
    unfold projectRevision
    rw [lookupA_renamed_filterMap e _ "revision_date" (by decide)]
    cases hv : lookupA e "revision_date" with
    | none => simp [hv]
    | some v => simp [hv]
  rw [h]

/-- Claim C7, amended: `get_revision_history` filters the revision ledger by
exact match on the dataset and, when given, on date and/or field with AND
semantics; the result is sorted by revision timestamp in non-increasing
(newest-first) order, is an empty (non-null) list when nothing matches, and
when no limit is given consists exactly of the projections of the matching
ledger entries; a positive limit truncates the result to at most that many
entries, but a limit of `0` is falsy in Python and is ignored (no
truncation). -/
theorem get_revision_history_spec (ledger : List Entity) (ds : String)
    (date fieldName : Option String) (limit : Option Nat) :
    (List.Pairwise (fun a b => revDescLe a b = true)
      (get_revision_history ledger ds date fieldName limit)) ∧
    (∀ l, limit = some l → 0 < l →
      (get_revision_history ledger ds date fieldName limit).length ≤ l) ∧
    ((∀ e ∈ ledger, matchesRevisionFilter ds date fieldName e = false) →
      get_revision_history ledger ds date fieldName limit = []) ∧
    (∀ x ∈ get_revision_history ledger ds date fieldName limit,
      ∃ e ∈ ledger, matchesRevisionFilter ds date fieldName e = true ∧
        x = projectRevision e) ∧
    (limit = none →
      List.Perm (get_revision_history ledger ds date fieldName limit)
        ((ledger.filter (matchesRevisionFilter ds date fieldName)).map
          projectRevision)) := by
  by_cases hres :
      (ledger.filter (matchesRevisionFilter ds date fieldName)).isEmpty =
        true
  · have hemp : get_revision_history ledger ds date fieldName limit = [] :=
      by
      unfold get_revision_history
      rw [if_pos hres]
    rw [hemp]
    refine ⟨List.Pairwise.nil, ?_, ?_, ?_, ?_⟩
    · intro l _ _
      simp
    · intro _
      rfl
    · intro x hx
      exact absurd hx (List.not_mem_nil x)
    · intro _
      rw [List.isEmpty_iff.mp hres]
      simp
  · have hsorted : List.Pairwise (fun a b => revDescLe a b = true)
        ((ledger.filter (matchesRevisionFilter ds date fieldName)).mergeSort
          revDescLe) :=
      List.sorted_mergeSort revDescLe_trans revDescLe_total
        (ledger.filter (matchesRevisionFilter ds date fieldName))
    have hperm :
        ((ledger.filter (matchesRevisionFilter ds date fieldName)).mergeSort
            revDescLe).Perm
          (ledger.filter (matchesRevisionFilter ds date fieldName)) :=
      List.mergeSort_perm _ revDescLe
    obtain ⟨limited, hres_eq, hsub, hlen, hfull⟩ : ∃ limited,
        get_revision_history ledger ds date fieldName limit =
          limited.map projectRevision ∧
        limited.Sublist ((ledger.filter (matchesRevisionFilter ds date
          fieldName)).mergeSort revDescLe) ∧
        (∀ l, limit = some l → 0 < l → limited.length ≤ l) ∧
        (limit = none → limited = (ledger.filter (matchesRevisionFilter ds
          date fieldName)).mergeSort revDescLe) := by
      cases limit with
      | none =>
        refine ⟨_, ?_, List.Sublist.refl _, ?_, fun _ => rfl⟩
        · unfold get_revision_history
          rw [if_neg hres]
        · intro l hl
          exact absurd hl (Option.noConfusion)
      | some l =>
        by_cases hc : l ≠ 0 ∧ ((ledger.filter (matchesRevisionFilter ds
            date fieldName)).mergeSort revDescLe).length > l
        · refine ⟨((ledger.filter (matchesRevisionFilter ds date
            fieldName)).mergeSort revDescLe).take l, ?_,
            List.take_sublist l _, ?_, fun hcon => Option.noConfusion hcon⟩
          · unfold get_revision_history
            rw [if_neg hres]
            show (if l ≠ 0 ∧ ((ledger.filter (matchesRevisionFilter ds
                date fieldName)).mergeSort revDescLe).length > l then
                ((ledger.filter (matchesRevisionFilter ds date
                  fieldName)).mergeSort revDescLe).take l
              else (ledger.filter (matchesRevisionFilter ds date
                fieldName)).mergeSort revDescLe).map projectRevision = _
            rw [if_pos hc]
          · intro l' hl' _
            obtain rfl : l = l' := Option.some.inj hl'
            rw [List.length_take]
            exact Nat.min_le_left l _
        · refine ⟨(ledger.filter (matchesRevisionFilter ds date
            fieldName)).mergeSort revDescLe, ?_, List.Sublist.refl _, ?_,
            fun hcon => Option.noConfusion hcon⟩
          · unfold get_revision_history
            rw [if_neg hres]
            show (if l ≠ 0 ∧ ((ledger.filter (matchesRevisionFilter ds
                date fieldName)).mergeSort revDescLe).length > l then
                ((ledger.filter (matchesRevisionFilter ds date
                  fieldName)).mergeSort revDescLe).take l
              else (ledger.filter (matchesRevisionFilter ds date
                fieldName)).mergeSort revDescLe).map projectRevision = _
            rw [if_neg hc]
          · intro l' hl' hpos
            obtain rfl : l = l' := Option.some.inj hl'
            rcases not_and_or.mp hc with h0 | hlt
            · exact absurd (Nat.pos_iff_ne_zero.mp hpos) h0
            · exact Nat.le_of_not_lt hlt
    rw [hres_eq]
    have hplim : List.Pairwise (fun a b => revDescLe a b = true) limited :=
      List.Pairwise.sublist hsub hsorted
    refine ⟨?_, ?_, ?_, ?_, ?_⟩
    · rw [List.pairwise_map]
      refine hplim.imp ?_
      intro a b hab
      unfold revDescLe at hab ⊢
      rw [revKey_projectRevision, revKey_projectRevision]
      exact hab
    · intro l hl hlpos
      rw [List.length_map]
      exact hlen l hl hlpos
    · intro hnone
      have hnil : ledger.filter (matchesRevisionFilter ds date fieldName) =
          [] := by
        rw [List.filter_eq_nil_iff]
        intro a ha
        simp [hnone a ha]
      exact absurd (List.isEmpty_iff.mpr hnil) hres
    · intro x hx
      obtain ⟨y, hy, hyx⟩ := List.mem_map.mp hx
      have hyS := List.Sublist.mem hy hsub
      have hyF := hperm.mem_iff.mp hyS
      obtain ⟨hyl, hym⟩ := List.mem_filter.mp hyF
      exact ⟨y, hyl, hym, hyx.symm⟩
    · intro hnone
      rw [hfull hnone]
      exact hperm.map projectRevision

/-- Claim C7, counterexample: with a one-entry ledger matching the dataset
filter and a given limit of `0`, the returned sequence has length `1`, so it
is not truncated to at most `limit` entries: the code treats a limit of `0`
(falsy in Python) as no limit. -/
theorem get_revision_history_limit_zero_not_truncating :
    (get_revision_history
      [[("PartitionKey", Val.str "ds"), ("RowKey", Val.str "k"),
        ("dataset", Val.str "ds"), ("data_date", Val.str "2024-01-01"),
        ("value_field", Val.str "rate"), ("old_value", Val.num 1),
        ("new_value", Val.num 2), ("revision_date", Val.str "T1")]]
      "ds" none none (some 0)).length = 1 := by
  simp only [get_revision_history]
  rw [show List.filter (matchesRevisionFilter "ds" none none)
      [[("PartitionKey", Val.str "ds"), ("RowKey", Val.str "k"),
        ("dataset", Val.str "ds"), ("data_date", Val.str "2024-01-01"),
        ("value_field", Val.str "rate"), ("old_value", Val.num 1),
        ("new_value", Val.num 2), ("revision_date", Val.str "T1")]] =
      [[("PartitionKey", Val.str "ds"), ("RowKey", Val.str "k"),
        ("dataset", Val.str "ds"), ("data_date", Val.str "2024-01-01"),
        ("value_field", Val.str "rate"), ("old_value", Val.num 1),
        ("new_value", Val.num 2), ("revision_date", Val.str "T1")]]
    from rfl]
  rw [List.mergeSort_singleton]
  rfl

/-- Witness for the amended claim C7, instantiated at a concrete empty
ledger query. -/
theorem get_revision_history_spec_witness :
    (List.Pairwise (fun a b => revDescLe a b = true)
      (get_revision_history [] "ds" none none none)) ∧
    (∀ l, (none : Option Nat) = some l → 0 < l →
      (get_revision_history [] "ds" none none none).length ≤ l) ∧
    ((∀ e ∈ ([] : List Entity),
        matchesRevisionFilter "ds" none none e = false) →
      get_revision_history [] "ds" none none none = []) ∧
    (∀ x ∈ get_revision_history [] "ds" none none none,
      ∃ e ∈ ([] : List Entity),
        matchesRevisionFilter "ds" none none e = true ∧
        x = projectRevision e) ∧
    ((none : Option Nat) = none →
      List.Perm (get_revision_history [] "ds" none none none)
        ((([] : List Entity).filter
          (matchesRevisionFilter "ds" none none)).map projectRevision)) :=
  get_revision_history_spec [] "ds" none none none

theorem lookupA_eq_none_of_not_mem_keys {α β : Type} [BEq α] [LawfulBEq α]
    (l : List (α × β)) (k : α) (h : k ∉ l.map Prod.fst) :
    lookupA l k = none := by
  unfold lookupA
  rw [List.find?_eq_none.mpr]
  · rfl
  · intro p hp
    simp only [beq_iff_eq]
    intro he
    exact h (he ▸ List.mem_map_of_mem Prod.fst hp)

theorem nodupKeys_setA (r : List (String × Val)) (k : String) (v : Val)
    (h : nodupKeys r) : nodupKeys (setA r k v) := by
  unfold nodupKeys at h ⊢
  rw [keys_setA]
  by_cases hf : (r.find? (fun p => p.1 == k)).isSome
  · rw [if_pos hf]
    exact h
  · rw [if_neg hf]
    rw [List.nodup_append]
    refine ⟨h, List.nodup_singleton k, ?_⟩
    intro a ha hk
    rw [Option.not_isSome_iff_eq_none, List.find?_eq_none] at hf
    obtain ⟨p, hp, hpa⟩ := List.mem_map.mp ha
    rw [List.mem_singleton] at hk
    subst hk
    exact hf p hp (by rw [beq_iff_eq, hpa])

theorem nodupKeys_foldl_setA (l : List (String × Val))
    (init : List (String × Val)) (h : nodupKeys init) :
    nodupKeys (l.foldl (fun acc p => setA acc p.1 p.2) init) := by
  induction l generalizing init with
  | nil => exact h
  | cons p l ih =>
    rw [List.foldl_cons]
    exact ih (setA init p.1 p.2) (nodupKeys_setA init p.1 p.2 h)

theorem lookupA_foldl_setA (l : List (String × Val))
    (init : List (String × Val)) (g : String) (hnd : nodupKeys l) :
    lookupA (l.foldl (fun acc p => setA acc p.1 p.2) init) g =
      (lookupA l g).or (lookupA init g) := by
  induction l generalizing init with
  | nil => simp [lookupA_nil]
  | cons p l ih =>
    unfold nodupKeys at hnd
    rw [List.map_cons, List.nodup_cons] at hnd
    obtain ⟨hp, hnd'⟩ := hnd
    rw [List.foldl_cons, ih (setA init p.1 p.2) hnd', lookupA_cons]
    by_cases hg : p.1 == g
    · have hg' : p.1 = g := beq_iff_eq.mp hg
      have hnone : lookupA l g = none := by
        rw [← hg']
        exact lookupA_eq_none_of_not_mem_keys l p.1 hp
      rw [hnone, lookupA_setA, if_pos hg'.symm]
      simp [hg]
    · have hne : g ≠ p.1 := by
        intro he
        exact absurd (beq_iff_eq.mpr he.symm) hg
      rw [lookupA_setA, if_neg hne]
      simp [hg]

theorem lookupA_mkEntity (ds rd : String) (row : Row) (hnd : nodupKeys row)
    (g : String) :
    lookupA (mkEntity ds rd row) g =
      (lookupA row g).or
        (lookupA [("PartitionKey", Val.str ds), ("RowKey", Val.str rd)]
          g) :=
  lookupA_foldl_setA row _ g hnd

theorem entityLe_mkEntity (ds rd : String) (row : Row)
    (hnd : nodupKeys row) : entityLe row (mkEntity ds rd row) := by
  intro f v hv
  rw [lookupA_mkEntity ds rd row hnd f, hv]
  rfl

theorem lookupA_mergeEntity (stored e : Entity) (hnd : nodupKeys e)
    (g : String) :
    lookupA (mergeEntity stored e) g =
      (lookupA e g).or (lookupA stored g) :=
  lookupA_foldl_setA e stored g hnd

theorem entityLe_mergeEntity (stored e : Entity) (hnd : nodupKeys e) :
    entityLe e (mergeEntity stored e) := by
  intro f v hv
  rw [lookupA_mergeEntity stored e hnd f, hv]
  rfl

theorem buildIndex_go (dF : String) (es : List Entity)
    (acc : List (Val × Entity)) (k : Val) :
    lookupA (es.foldl (fun idx e =>
        match lookupA e dF with
        | some d => setA idx d e
        | none => idx) acc) k =
      (match es.reverse.find? (fun e => lookupA e dF == some k) with
       | some e => some e
       | none => lookupA acc k) := by
  induction es generalizing acc with
  | nil => simp
  | cons e es ih =>
    rw [List.foldl_cons, ih, List.reverse_cons, List.find?_append]
    cases hfind : es.reverse.find? (fun e => lookupA e dF == some k) with
    | some f => simp [hfind]
    | none =>
      simp only [hfind, Option.none_or]
      cases hd : lookupA e dF with
      | none =>
        have hpe : (fun e => lookupA e dF == some k) e = false := by
          simp [hd]
        simp [List.find?, hpe]
      | some d =>
        rw [lookupA_setA]
        by_cases hkd : k = d
        · subst hkd
          have hpe : (fun e => lookupA e dF == some k) e = true := by
            simp [hd]
          simp [List.find?, hpe]
        · have hpe : (fun e => lookupA e dF == some k) e = false := by
            simp only [hd, beq_eq_false_iff_ne]
            intro he
            exact hkd (Option.some.inj he).symm
          simp [List.find?, hpe, hkd]

theorem find?_date_reverse (dF : String) (es : List Entity) (k : Val)
    (hnd : (es.map (fun e => lookupA e dF)).Nodup) :
    es.reverse.find? (fun e => lookupA e dF == some k) =
      es.find? (fun e => lookupA e dF == some k) := by
  induction es with
  | nil => rfl
  | cons e es ih =>
    rw [List.map_cons, List.nodup_cons] at hnd
    obtain ⟨he, hnd'⟩ := hnd
    rw [List.reverse_cons, List.find?_append, ih hnd']
    cases hpe : (fun e => lookupA e dF == some k) e with
    | true =>
      have hnone : es.find? (fun e => lookupA e dF == some k) = none := by
        rw [List.find?_eq_none]
        intro x hx
        simp only [beq_iff_eq]
        intro hxk
        refine he ?_
        have hek : lookupA e dF = some k := by
          simpa using hpe
        rw [hek, ← hxk]
        exact List.mem_map_of_mem (fun e => lookupA e dF) hx
      rw [hnone]
      simp [List.find?, hpe]
    | false =>
      simp [List.find?, hpe]

theorem lookupA_buildIndex (dF : String) (es : List Entity) (k : Val)
    (hnd : (es.map (fun e => lookupA e dF)).Nodup) :
    lookupA (buildIndex dF es) k =
      es.find? (fun e => lookupA e dF == some k) := by
  unfold buildIndex
  rw [buildIndex_go, find?_date_reverse dF es k hnd]
  cases h : es.find? (fun e => lookupA e dF == some k) <;>
    simp [h, lookupA_nil]

theorem sameKey_iff (ds dF : String) (e0 E : Entity) (d0 dE : String)
    (h0 : WFEntity ds dF d0 e0) (hE : WFEntity ds dF dE E) :
    sameKey e0 E = true ↔ d0 = dE := by
  obtain ⟨hp0, hr0, _⟩ := h0
  obtain ⟨hpE, hrE, _⟩ := hE
  unfold sameKey
  rw [hp0, hpE, hr0, hrE]
  simp

theorem diffField_self (row : Row) (existingRow : Entity) (f : String)
    (h : ∀ v, lookupA row f = some v → lookupA existingRow f = some v) :
    diffField row existingRow f = none := by
  unfold diffField
  cases hv : lookupA row f with
  | none => rfl
  | some v =>
    rw [h v hv]
    show (if (isna v || isna v) = true then none
      else match toFloat v, toFloat v with
        | some newFloat, some oldFloat =>
          if |newFloat - oldFloat| > 1 / 1000 then some (oldFloat, newFloat)
          else none
        | _, _ => none) = (none : Option (ℚ × ℚ))
    by_cases hnan : isna v = true
    · simp [hnan]
    · rw [Bool.not_eq_true] at hnan
      rw [hnan, if_neg (by exact fun hcon => Bool.noConfusion hcon)]
      cases ht : toFloat v with
      | none => rfl
      | some x =>
        show (if |x - x| > 1 / 1000 then some (x, x) else none) =
          (none : Option (ℚ × ℚ))
        rw [if_neg]
        rw [sub_self, abs_zero]
        norm_num

theorem find?_map_of_pred_eq {α : Type} (g : α → α) (p : α → Bool)
    (l : List α) (hpt : ∀ x ∈ l, p (g x) = p x) :
    (l.map g).find? p = (l.find? p).map g := by
  induction l with
  | nil => rfl
  | cons x l ih =>
    have hx := hpt x (List.mem_cons_self x l)
    cases hpx : p x with
    | true =>
      rw [List.map_cons, List.find?_cons, List.find?_cons, hx, hpx]
      rfl
    | false =>
      rw [List.map_cons, List.find?_cons, List.find?_cons, hx, hpx]
      exact ih (fun y hy => hpt y (List.mem_cons_of_mem x hy))

theorem upsertEntity_spec (ds dF : String) (t : List Entity) (E : Entity)
    (dE : String) (hwf : WFTable ds dF t) (hE : WFEntity ds dF dE E)
    (hndE : nodupKeys E) :
    WFTable ds dF (upsertEntity t E) ∧
    (∀ d : String, d ≠ dE →
      (upsertEntity t E).find?
          (fun e => lookupA e dF == some (Val.str d)) =
        t.find? (fun e => lookupA e dF == some (Val.str d))) ∧
    (∃ E', (upsertEntity t E).find?
        (fun e => lookupA e dF == some (Val.str dE)) = some E' ∧
      entityLe E E') := by
  obtain ⟨hwfe, hwfnd⟩ := hwf
  have hEdF : lookupA E dF = some (Val.str dE) := hE.2.2
  have hdate_of_same : ∀ e0 ∈ t, sameKey e0 E = true →
      lookupA e0 dF = some (Val.str dE) := by
    intro e0 he0 hsk
    obtain ⟨d0, h0⟩ := hwfe e0 he0
    obtain rfl : d0 = dE := (sameKey_iff ds dF e0 E d0 dE h0 hE).mp hsk
    exact h0.2.2
  have hsame_of_date : ∀ e0 ∈ t, lookupA e0 dF = some (Val.str dE) →
      sameKey e0 E = true := by
    intro e0 he0 hdt
    obtain ⟨d0, h0⟩ := hwfe e0 he0
    have : d0 = dE := by
      have := h0.2.2.symm.trans hdt
      exact Val.str.inj (Option.some.inj this)
    exact (sameKey_iff ds dF e0 E d0 dE h0 hE).mpr this
  unfold upsertEntity
  cases hany : t.any (fun stored => sameKey stored E) with
  | false =>
    have hno : ∀ e0 ∈ t, lookupA e0 dF ≠ some (Val.str dE) := by
      intro e0 he0 hdt
      have : t.any (fun stored => sameKey stored E) = true :=
        List.any_eq_true.mpr ⟨e0, he0, hsame_of_date e0 he0 hdt⟩
      rw [hany] at this
      exact Bool.noConfusion this
    simp only [Bool.false_eq_true, if_false]
    refine ⟨⟨?_, ?_⟩, ?_, ?_⟩
    · intro e he
      rcases List.mem_append.mp he with he | he
      · exact hwfe e he
      · rw [List.mem_singleton] at he
        exact ⟨dE, he ▸ hE⟩
    · rw [List.map_append]
      rw [List.nodup_append]
      refine ⟨hwfnd, by simp, ?_⟩
      intro a ha hb
      simp only [List.map_cons, List.map_nil, List.mem_singleton] at hb
      obtain ⟨e0, he0, hae⟩ := List.mem_map.mp ha
      exact hno e0 he0 (hae.trans (hb.trans hEdF))
    · intro d hd
      rw [List.find?_append]
      have hsing : ([E].find?
          (fun e => lookupA e dF == some (Val.str d))) = none := by
        rw [List.find?_eq_none]
        intro x hx
        rw [List.mem_singleton] at hx
        subst hx
        rw [hEdF]
        intro hcon
        exact hd (Val.str.inj (Option.some.inj (beq_iff_eq.mp hcon))).symm
      rw [hsing, Option.or_none]
    · refine ⟨E, ?_, fun f v hv => hv⟩
      rw [List.find?_append]
      have hnone : t.find? (fun e => lookupA e dF == some (Val.str dE)) =
          none := by
        rw [List.find?_eq_none]
        intro x hx
        intro hcon
        exact hno x hx (beq_iff_eq.mp hcon)
      rw [hnone]
      have hsing : ([E].find?
          (fun e => lookupA e dF == some (Val.str dE))) = some E := by
        simp [List.find?_cons, hEdF]
      rw [hsing]
      rfl
  | true =>
    simp only [if_true]
    have hmap_date : ∀ e0 ∈ t,
        lookupA (if sameKey e0 E then mergeEntity e0 E else e0) dF =
          lookupA e0 dF := by
      intro e0 he0
      cases hsk : sameKey e0 E with
      | false => rw [if_neg (fun hcon => Bool.noConfusion hcon)]
      | true =>
        rw [if_pos rfl, lookupA_mergeEntity e0 E hndE dF, hEdF]
        rw [hdate_of_same e0 he0 hsk]
        rfl
    have hmap_pred : ∀ d : String, ∀ e0 ∈ t,
        (fun e => lookupA e dF == some (Val.str d))
            (if sameKey e0 E then mergeEntity e0 E else e0) =
          (fun e => lookupA e dF == some (Val.str d)) e0 := by
      intro d e0 he0
      simp only [hmap_date e0 he0]
    refine ⟨⟨?_, ?_⟩, ?_, ?_⟩
    · intro e he
      obtain ⟨e0, he0, hge⟩ := List.mem_map.mp he
      obtain ⟨d0, h0⟩ := hwfe e0 he0
      cases hsk : sameKey e0 E with
      | false =>
        rw [hsk] at hge
        simp only [Bool.false_eq_true, if_false] at hge
        exact ⟨d0, hge ▸ h0⟩
      | true =>
        rw [hsk] at hge
        rw [if_pos rfl] at hge
        refine ⟨dE, ?_⟩
        rw [← hge]
        refine ⟨?_, ?_, ?_⟩
        · rw [lookupA_mergeEntity e0 E hndE, hE.1]
          rfl
        · rw [lookupA_mergeEntity e0 E hndE, hE.2.1]
          rfl
        · rw [lookupA_mergeEntity e0 E hndE, hEdF]
          rfl
    · have : (t.map (fun e0 => if sameKey e0 E then mergeEntity e0 E
          else e0)).map (fun e => lookupA e dF) =
          t.map (fun e => lookupA e dF) := by
        rw [List.map_map]
        exact List.map_congr_left (fun e0 he0 => hmap_date e0 he0)
      rw [this]
      exact hwfnd
    · intro d hd
      rw [find?_map_of_pred_eq _ _ t (hmap_pred d)]
      cases hfind : t.find? (fun e => lookupA e dF == some (Val.str d))
        with
      | none => rfl
      | some e0 =>
        have he0 := List.mem_of_find?_eq_some hfind
        have hpe0 := List.find?_some hfind
        have hsk : sameKey e0 E = false := by
          cases hsk : sameKey e0 E with
          | false => rfl
          | true =>
            have := hdate_of_same e0 he0 hsk
            rw [this] at hpe0
            have : dE = d := Val.str.inj (Option.some.inj
              (beq_iff_eq.mp hpe0))
            exact absurd this.symm hd
        simp only [Option.map_some']
        rw [if_neg (by rw [hsk]; exact fun hcon => Bool.noConfusion hcon)]
    · rw [find?_map_of_pred_eq _ _ t (hmap_pred dE)]
      obtain ⟨e0, he0, hske⟩ := List.any_eq_true.mp hany
      have hfind_some : (t.find?
          (fun e => lookupA e dF == some (Val.str dE))).isSome = true := by
        cases hfind : t.find? (fun e => lookupA e dF == some (Val.str dE))
          with
        | some _ => rfl
        | none =>
          rw [List.find?_eq_none] at hfind
          have hcon := hfind e0 he0
          rw [hdate_of_same e0 he0 hske] at hcon
          simp at hcon
      obtain ⟨e1, hfind⟩ := Option.isSome_iff_exists.mp hfind_some
      have he1 := List.mem_of_find?_eq_some hfind
      have hpe1 := List.find?_some hfind
      have hsk1 : sameKey e1 E = true :=
        hsame_of_date e1 he1 (beq_iff_eq.mp hpe1)
      refine ⟨mergeEntity e1 E, ?_, entityLe_mergeEntity e1 E hndE⟩
      rw [hfind]
      simp only [Option.map_some']
      rw [if_pos hsk1]

theorem batch_upsert_apply_spec (ds dF : String) (W : List Entity) :
    ∀ t : List Entity, WFTable ds dF t →
    (∀ E ∈ W, ∃ dE, WFEntity ds dF dE E ∧ nodupKeys E) →
    (∀ E ∈ W, ∀ F ∈ W, lookupA E dF = lookupA F dF → E = F) →
    WFTable ds dF (batch_upsert_apply t W) ∧
    (∀ d : String, (∀ E ∈ W, lookupA E dF ≠ some (Val.str d)) →
      (batch_upsert_apply t W).find?
          (fun e => lookupA e dF == some (Val.str d)) =
        t.find? (fun e => lookupA e dF == some (Val.str d))) ∧
    (∀ E ∈ W, ∀ dE, lookupA E dF = some (Val.str dE) →
      ∃ E', (batch_upsert_apply t W).find?
          (fun e => lookupA e dF == some (Val.str dE)) = some E' ∧
        entityLe E E') := by
  induction W with
  | nil =>
    intro t hwf _ _
    exact ⟨hwf, fun d _ => rfl,
      fun E hE => absurd hE (List.not_mem_nil E)⟩
  | cons E0 W ih =>
    intro t hwf hW hU
    obtain ⟨d0, h0wf, h0nd⟩ := hW E0 (List.mem_cons_self E0 W)
    obtain ⟨hwf', hkeep0, hhit0⟩ :=
      upsertEntity_spec ds dF t E0 d0 hwf h0wf h0nd
    obtain ⟨ih_wf, ih_keep, ih_hit⟩ := ih (upsertEntity t E0) hwf'
      (fun E hE => hW E (List.mem_cons_of_mem E0 hE))
      (fun E hE F hF => hU E (List.mem_cons_of_mem E0 hE) F
        (List.mem_cons_of_mem E0 hF))
    have happ : batch_upsert_apply t (E0 :: W) =
        batch_upsert_apply (upsertEntity t E0) W := rfl
    refine ⟨happ ▸ ih_wf, ?_, ?_⟩
    · intro d hd
      rw [happ, ih_keep d (fun F hF => hd F (List.mem_cons_of_mem E0 hF))]
      refine hkeep0 d ?_
      intro he
      refine hd E0 (List.mem_cons_self E0 W) ?_
      rw [h0wf.2.2, he]
    · intro E hE dE hEd
      rw [happ]
      rcases List.mem_cons.mp hE with rfl | hEW
      · have hd0E : d0 = dE :=
          Val.str.inj (Option.some.inj (h0wf.2.2.symm.trans hEd))
        subst hd0E
        by_cases hWdup : ∀ F ∈ W, lookupA F dF ≠ some (Val.str d0)
        · obtain ⟨E', hfind, hle⟩ := hhit0
          rw [ih_keep d0 hWdup]
          exact ⟨E', hfind, hle⟩
        · push_neg at hWdup
          obtain ⟨F, hF, hFd⟩ := hWdup
          have hEF : E = F := hU E (List.mem_cons_self E W) F
            (List.mem_cons_of_mem E hF) (h0wf.2.2.trans hFd.symm)
          obtain ⟨E', hfind, hle⟩ := ih_hit F hF d0 hFd
          refine ⟨E', hfind, ?_⟩
          rw [hEF]
          exact hle
      · exact ih_hit E hEW dE hEd

theorem normalizeRow_eq (dF : String) (normDate : Val → String) (r : Row)
    (v : Val) (hv : lookupA r dF = some v) :
    normalizeRow dF normDate r = setA r dF (Val.str (normDate v)) := by
  unfold normalizeRow
  rw [hv]

theorem setA_date_facts (dF : String) (r : Row) (s : String)
    (hnd : nodupKeys r) (hpk : lookupA r "PartitionKey" = none)
    (hrk : lookupA r "RowKey" = none) (hdFp : dF ≠ "PartitionKey")
    (hdFr : dF ≠ "RowKey") :
    nodupKeys (setA r dF (Val.str s)) ∧
    lookupA (setA r dF (Val.str s)) dF = some (Val.str s) ∧
    rowDate dF (setA r dF (Val.str s)) = s ∧
    lookupA (setA r dF (Val.str s)) "PartitionKey" = none ∧
    lookupA (setA r dF (Val.str s)) "RowKey" = none := by
  have h1 : lookupA (setA r dF (Val.str s)) dF = some (Val.str s) := by
    rw [lookupA_setA]
    simp
  refine ⟨nodupKeys_setA r dF _ hnd, h1, ?_, ?_, ?_⟩
  · unfold rowDate
    rw [h1]
  · rw [lookupA_setA, if_neg (fun he => hdFp he.symm), hpk]
  · rw [lookupA_setA, if_neg (fun he => hdFr he.symm), hrk]

theorem mkEntity_facts (ds dF rd : String) (r2 : Row)
    (hnd : nodupKeys r2) (hd2 : lookupA r2 dF = some (Val.str rd))
    (hpk : lookupA r2 "PartitionKey" = none)
    (hrk : lookupA r2 "RowKey" = none) :
    WFEntity ds dF rd (mkEntity ds rd r2) ∧
    nodupKeys (mkEntity ds rd r2) ∧ entityLe r2 (mkEntity ds rd r2) := by
  have hbase : nodupKeys
      [("PartitionKey", Val.str ds), ("RowKey", Val.str rd)] := by
    simp [nodupKeys]
  refine ⟨⟨?_, ?_, ?_⟩, nodupKeys_foldl_setA r2 _ hbase,
    entityLe_mkEntity ds rd r2 hnd⟩
  · rw [lookupA_mkEntity ds rd r2 hnd, hpk]
    rfl
  · rw [lookupA_mkEntity ds rd r2 hnd, hrk]
    rfl
  · rw [lookupA_mkEntity ds rd r2 hnd, hd2]
    rfl

theorem smart_update_second_run_empty (beh1 beh2 : ConnBehavior)
    (ds : String) (df : List Row) (dF : String) (vF : List String)
    (normDate : Val → String) (now1 now2 : String) (tbl0 : List Entity)
    (hrow : ∀ r ∈ df, nodupKeys r ∧ (lookupA r dF).isSome ∧
      lookupA r "PartitionKey" = none ∧ lookupA r "RowKey" = none)
    (hdFp : dF ≠ "PartitionKey") (hdFr : dF ≠ "RowKey")
    (hdates : ((runDf2 dF normDate df).map (rowDate dF)).Nodup)
    (hwf : WFTable ds dF tbl0)
    (h1f : beh1.fetchResult = Except.ok tbl0)
    (h2f : beh2.fetchResult = Except.ok
      (tableAfterRun beh1 ds df dF vF normDate now1 tbl0)) :
    runNewL beh2 ds df dF normDate = [] ∧
    runUpdL beh2 ds df dF vF normDate now2 = [] ∧
    runRevL beh2 ds df dF vF normDate now2 = [] := by
  have hrow2 : ∀ r2 ∈ runDf2 dF normDate df, nodupKeys r2 ∧
      lookupA r2 dF = some (Val.str (rowDate dF r2)) ∧
      lookupA r2 "PartitionKey" = none ∧
      lookupA r2 "RowKey" = none := by
    intro r2 hr2
    obtain ⟨r, hr, hr2eq⟩ := List.mem_map.mp hr2
    obtain ⟨hnd, hds, hpk, hrk⟩ := hrow r hr
    obtain ⟨v, hv⟩ := Option.isSome_iff_exists.mp hds
    have heq := normalizeRow_eq dF normDate r v hv
    obtain ⟨f1, f2, f3, f4, f5⟩ :=
      setA_date_facts dF r (normDate v) hnd hpk hrk hdFp hdFr
    rw [← hr2eq, heq]
    exact ⟨f1, by rw [f2, f3], f4, f5⟩
  have hmk : ∀ r2 ∈ runDf2 dF normDate df,
      WFEntity ds dF (rowDate dF r2) (mkEntity ds (rowDate dF r2) r2) ∧
      nodupKeys (mkEntity ds (rowDate dF r2) r2) ∧
      entityLe r2 (mkEntity ds (rowDate dF r2) r2) := by
    intro r2 hr2
    obtain ⟨hnd2, hd2, hpk2, hrk2⟩ := hrow2 r2 hr2
    exact mkEntity_facts ds dF (rowDate dF r2) r2 hnd2 hd2 hpk2 hrk2
  have hWsrc : ∀ E ∈ runNewL beh1 ds df dF normDate ++
      runUpdL beh1 ds df dF vF normDate now1,
      ∃ r2 ∈ runDf2 dF normDate df,
        E = mkEntity ds (rowDate dF r2) r2 ∧
        (rowNew ds dF (runIdx beh1 dF) r2 = some E ∨
          rowUpd ds dF vF now1 (runIdx beh1 dF) r2 = some E) := by
    intro E hE
    rcases List.mem_append.mp hE with hE | hE
    · obtain ⟨r2, hr2, hnew⟩ := List.mem_filterMap.mp hE
      refine ⟨r2, hr2, ?_, Or.inl hnew⟩
      unfold rowNew at hnew
      cases hcls : lookupA (runIdx beh1 dF) (Val.str (rowDate dF r2)) with
      | none =>
        rw [hcls] at hnew
        exact (Option.some.inj hnew).symm
      | some ex =>
        rw [hcls] at hnew
        exact Option.noConfusion hnew
    · obtain ⟨r2, hr2, hupd⟩ := List.mem_filterMap.mp hE
      refine ⟨r2, hr2, ?_, Or.inr hupd⟩
      unfold rowUpd at hupd
      cases hcls : lookupA (runIdx beh1 dF) (Val.str (rowDate dF r2)) with
      | none =>
        rw [hcls] at hupd
        exact Option.noConfusion hupd
      | some ex =>
        rw [hcls] at hupd
        have hupd2 : (if (rowRevs ds dF vF now1 (runIdx beh1 dF)
            r2).isEmpty then none
            else some (mkEntity ds (rowDate dF r2) r2)) = some E := hupd
        by_cases hemp : (rowRevs ds dF vF now1 (runIdx beh1 dF)
            r2).isEmpty = true
        · rw [if_pos hemp] at hupd2
          exact Option.noConfusion hupd2
        · rw [if_neg hemp] at hupd2
          exact (Option.some.inj hupd2).symm
  have hWfacts : ∀ E ∈ runNewL beh1 ds df dF normDate ++
      runUpdL beh1 ds df dF vF normDate now1,
      ∃ dE, WFEntity ds dF dE E ∧ nodupKeys E := by
    intro E hE
    obtain ⟨r2, hr2, heq, _⟩ := hWsrc E hE
    exact ⟨rowDate dF r2, heq ▸ (hmk r2 hr2).1, heq ▸ (hmk r2 hr2).2.1⟩
  have hinj := List.inj_on_of_nodup_map hdates
  have hU : ∀ E ∈ runNewL beh1 ds df dF normDate ++
      runUpdL beh1 ds df dF vF normDate now1,
      ∀ F ∈ runNewL beh1 ds df dF normDate ++
        runUpdL beh1 ds df dF vF normDate now1,
      lookupA E dF = lookupA F dF → E = F := by
    intro E hE F hF hEF
    obtain ⟨r2, hr2, heq, _⟩ := hWsrc E hE
    obtain ⟨r2', hr2', heq', _⟩ := hWsrc F hF
    have h1 : lookupA E dF = some (Val.str (rowDate dF r2)) := by
      rw [heq]
      exact (hmk r2 hr2).1.2.2
    have h2 : lookupA F dF = some (Val.str (rowDate dF r2')) := by
      rw [heq']
      exact (hmk r2' hr2').1.2.2
    have hdd : rowDate dF r2 = rowDate dF r2' :=
      Val.str.inj (Option.some.inj (h1.symm.trans (hEF.trans h2)))
    have hrr : r2 = r2' := hinj hr2 hr2' hdd
    rw [heq, heq', hrr]
  obtain ⟨hwf1, hkeepW, hhitW⟩ := batch_upsert_apply_spec ds dF
    (runNewL beh1 ds df dF normDate ++
      runUpdL beh1 ds df dF vF normDate now1) tbl0 hwf hWfacts hU
  have htbl : tableAfterRun beh1 ds df dF vF normDate now1 tbl0 =
      batch_upsert_apply tbl0 (runNewL beh1 ds df dF normDate ++
        runUpdL beh1 ds df dF vF normDate now1) := by
    unfold tableAfterRun batch_upsert_apply
    rw [List.foldl_append]
  have hidx1 : ∀ k, lookupA (runIdx beh1 dF) k =
      tbl0.find? (fun e => lookupA e dF == some k) := by
    intro k
    unfold runIdx
    rw [h1f]
    exact lookupA_buildIndex dF tbl0 k hwf.2
  have hidx2 : ∀ k, lookupA (runIdx beh2 dF) k =
      (batch_upsert_apply tbl0 (runNewL beh1 ds df dF normDate ++
        runUpdL beh1 ds df dF vF normDate now1)).find?
        (fun e => lookupA e dF == some k) := by
    intro k
    unfold runIdx
    rw [h2f]
    have hq : query_entities (Except.ok
        (tableAfterRun beh1 ds df dF vF normDate now1 tbl0)) =
        batch_upsert_apply tbl0 (runNewL beh1 ds df dF normDate ++
          runUpdL beh1 ds df dF vF normDate now1) := htbl
    rw [hq]
    exact lookupA_buildIndex dF _ k hwf1.2
  have hA : ∀ r2 ∈ runDf2 dF normDate df, ∃ E₂,
      lookupA (runIdx beh2 dF) (Val.str (rowDate dF r2)) = some E₂ ∧
      ∀ f ∈ vF, diffField r2 E₂ f = none := by
    intro r2 hr2
    cases hcls : lookupA (runIdx beh1 dF) (Val.str (rowDate dF r2)) with
    | none =>
      have hnew : rowNew ds dF (runIdx beh1 dF) r2 =
          some (mkEntity ds (rowDate dF r2) r2) :=
        rowNew_of_absent ds dF _ r2 hcls
      have hEmem : mkEntity ds (rowDate dF r2) r2 ∈
          runNewL beh1 ds df dF normDate ++
            runUpdL beh1 ds df dF vF normDate now1 :=
        List.mem_append.mpr
          (Or.inl (List.mem_filterMap.mpr ⟨r2, hr2, hnew⟩))
      obtain ⟨E', hfind, hle⟩ := hhitW _ hEmem (rowDate dF r2)
        (hmk r2 hr2).1.2.2
      refine ⟨E', ?_, ?_⟩
      · rw [hidx2]
        exact hfind
      · intro f _
        refine diffField_self r2 E' f ?_
        intro v hv
        exact hle f v ((hmk r2 hr2).2.2 f v hv)
    | some ex =>
      by_cases hemp : (rowRevs ds dF vF now1 (runIdx beh1 dF)
          r2).isEmpty = true
      · have hnoW : ∀ E ∈ runNewL beh1 ds df dF normDate ++
            runUpdL beh1 ds df dF vF normDate now1,
            lookupA E dF ≠ some (Val.str (rowDate dF r2)) := by
          intro E hEW hcon
          obtain ⟨r2', hr2', heq, hor⟩ := hWsrc E hEW
          have hEd : lookupA E dF = some (Val.str (rowDate dF r2')) := by
            rw [heq]
            exact (hmk r2' hr2').1.2.2
          have hdd : rowDate dF r2' = rowDate dF r2 :=
            Val.str.inj (Option.some.inj (hEd.symm.trans hcon))
          have hrr : r2' = r2 := hinj hr2' hr2 hdd
          subst hrr
          rcases hor with h | h
          · rw [rowNew_of_present ds dF _ r2' ex hcls] at h
            exact Option.noConfusion h
          · rw [rowUpd_of_present ds dF vF now1 _ r2' ex hcls,
              if_pos hemp] at h
            exact Option.noConfusion h
        refine ⟨ex, ?_, ?_⟩
        · rw [hidx2, hkeepW _ hnoW, ← hidx1]
          exact hcls
        · have hrevs : rowRevs ds dF vF now1 (runIdx beh1 dF) r2 = [] :=
            List.isEmpty_iff.mp hemp
          rw [rowRevs_of_present ds dF vF now1 _ r2 ex hcls,
            List.filterMap_eq_nil_iff] at hrevs
          intro f hf
          have hmape := hrevs f hf
          rw [Option.map_eq_none'] at hmape
          exact hmape
      · have hupd : rowUpd ds dF vF now1 (runIdx beh1 dF) r2 =
            some (mkEntity ds (rowDate dF r2) r2) := by
          rw [rowUpd_of_present ds dF vF now1 _ r2 ex hcls, if_neg hemp]
        have hEmem : mkEntity ds (rowDate dF r2) r2 ∈
            runNewL beh1 ds df dF normDate ++
              runUpdL beh1 ds df dF vF normDate now1 :=
          List.mem_append.mpr
            (Or.inr (List.mem_filterMap.mpr ⟨r2, hr2, hupd⟩))
        obtain ⟨E', hfind, hle⟩ := hhitW _ hEmem (rowDate dF r2)
          (hmk r2 hr2).1.2.2
        refine ⟨E', ?_, ?_⟩
        · rw [hidx2]
          exact hfind
        · intro f _
          refine diffField_self r2 E' f ?_
          intro v hv
          exact hle f v ((hmk r2 hr2).2.2 f v hv)
  refine ⟨?_, ?_, ?_⟩
  · unfold runNewL
    rw [List.filterMap_eq_nil_iff]
    intro r2 hr2
    obtain ⟨E₂, hl, _⟩ := hA r2 hr2
    exact rowNew_of_present ds dF _ r2 E₂ hl
  · unfold runUpdL
    rw [List.filterMap_eq_nil_iff]
    intro r2 hr2
    obtain ⟨E₂, hl, hdf⟩ := hA r2 hr2
    have hrevs2 : rowRevs ds dF vF now2 (runIdx beh2 dF) r2 = [] := by
      rw [rowRevs_of_present ds dF vF now2 _ r2 E₂ hl,
        List.filterMap_eq_nil_iff]
      intro f hf
      rw [hdf f hf]
      rfl
    rw [rowUpd_of_present ds dF vF now2 _ r2 E₂ hl,
      if_pos (by rw [hrevs2]; rfl)]
  · unfold runRevL
    rw [List.flatMap_eq_nil_iff]
    intro r2 hr2
    obtain ⟨E₂, hl, hdf⟩ := hA r2 hr2
    rw [rowRevs_of_present ds dF vF now2 _ r2 E₂ hl,
      List.filterMap_eq_nil_iff]
    intro f hf
    rw [hdf f hf]
    rfl

/-- Claim C1: for every dataset and every incoming record batch (well-formed
per the spec's input contract: rows are dicts with the date column, without
reserved key columns, deduplicated by normalized date; the stored table is
well-formed with unique dates), running `smart_update` a second time with
identical input — when the first call's record writes were applied to the
store and no external change intervened — returns counts
`{new: 0, updated: 0, revisions: 0}` and issues no write; every record's
date then already exists, a tracked field whose values differ by at most
`0.001` yields no change, and a record all of whose tracked-field
comparisons report no change is classified unchanged and generates no
write. -/
theorem smart_update_idempotent (beh1 beh2 : ConnBehavior) (ds : String)
    (df : List Row) (dF : String) (vF : List String)
    (normDate : Val → String) (now1 now2 : String) (tbl0 : List Entity)
    (hne : df ≠ [])
    (hrow : ∀ r ∈ df, nodupKeys r ∧ (lookupA r dF).isSome ∧
      lookupA r "PartitionKey" = none ∧ lookupA r "RowKey" = none)
    (hdFp : dF ≠ "PartitionKey") (hdFr : dF ≠ "RowKey")
    (hdates : ((runDf2 dF normDate df).map (rowDate dF)).Nodup)
    (hwf : WFTable ds dF tbl0)
    (h1ct : beh1.createTableOk = true)
    (h1f : beh1.fetchResult = Except.ok tbl0)
    (h2ct : beh2.createTableOk = true)
    (h2f : beh2.fetchResult = Except.ok
      (tableAfterRun beh1 ds df dF vF normDate now1 tbl0)) :
    (∃ out2, smart_update beh2 ds df dF vF normDate now2 = some out2 ∧
      out2.counts = ⟨0, 0, 0⟩ ∧ out2.newWrites = none ∧
      out2.updWrites = none ∧ out2.revWrites = none) ∧
    (∀ (row : Row) (existingRow : Entity) (f : String) (nv ov : ℚ),
      lookupA row f = some (Val.num nv) →
      lookupA existingRow f = some (Val.num ov) →
      |nv - ov| ≤ 1 / 1000 → diffField row existingRow f = none) ∧
    (∀ (idx : List (Val × Entity)) (row : Row) (existingRow : Entity),
      lookupA idx (Val.str (rowDate dF row)) = some existingRow →
      (∀ f ∈ vF, diffField row existingRow f = none) →
      rowUpd ds dF vF now2 idx row = none ∧
      rowRevs ds dF vF now2 idx row = []) := by
  obtain ⟨hn2, hu2, hr2⟩ := smart_update_second_run_empty beh1 beh2 ds df
    dF vF normDate now1 now2 tbl0 hrow hdFp hdFr hdates hwf h1f h2f
  refine ⟨?_, ?_, ?_⟩
  · have hdate : ∀ r ∈ df, (lookupA r dF).isSome :=
      fun r hr => (hrow r hr).2.1
    refine ⟨_, smart_update_run beh2 ds df dF vF normDate now2 hne hdate
      h2ct, ?_, ?_, ?_, ?_⟩
    · show (⟨groupCount (runNewL beh2 ds df dF normDate) beh2.newOk,
        groupCount (runUpdL beh2 ds df dF vF normDate now2) beh2.updatedOk,
        groupCount (runRevL beh2 ds df dF vF normDate now2)
          beh2.revisionsOk⟩ : Counts) = ⟨0, 0, 0⟩
      rw [hn2, hu2, hr2]
      rfl
    · show groupWrite (runNewL beh2 ds df dF normDate) = none
      rw [hn2]
      rfl
    · show groupWrite (runUpdL beh2 ds df dF vF normDate now2) = none
      rw [hu2]
      rfl
    · show groupWrite (runRevL beh2 ds df dF vF normDate now2) = none
      rw [hr2]
      rfl
  · intro row existingRow f nv ov hn ho hle
    simp [diffField, hn, ho, isna, toFloat]
    simpa using hle
  · intro idx row existingRow hl hall
    have hrevs : rowRevs ds dF vF now2 idx row = [] := by
      rw [rowRevs_of_present ds dF vF now2 idx row existingRow hl,
        List.filterMap_eq_nil_iff]
      intro f hf
      rw [hall f hf]
      rfl
    refine ⟨?_, hrevs⟩
    rw [rowUpd_of_present ds dF vF now2 idx row existingRow hl,
      if_pos (by rw [hrevs]; rfl)]

/-- Witness for claim C1 at a concrete one-row batch over an initially empty
store: the second run returns all-zero counts and issues no write. -/
theorem smart_update_idempotent_witness :
    (∃ out2, smart_update
        ⟨true, Except.ok (tableAfterRun ⟨true, Except.ok [], true, true,
          true⟩ "tbl" [[("obs_date", Val.str "2024-01-01"),
            ("v", Val.num 5)]] "obs_date" ["v"]
          (fun _ => "2024-01-01") "T1" []), true, true, true⟩ "tbl"
        [[("obs_date", Val.str "2024-01-01"), ("v", Val.num 5)]]
        "obs_date" ["v"] (fun _ => "2024-01-01") "T2" = some out2 ∧
      out2.counts = ⟨0, 0, 0⟩ ∧ out2.newWrites = none ∧
      out2.updWrites = none ∧ out2.revWrites = none) ∧
    (∀ (row : Row) (existingRow : Entity) (f : String) (nv ov : ℚ),
      lookupA row f = some (Val.num nv) →
      lookupA existingRow f = some (Val.num ov) →
      |nv - ov| ≤ 1 / 1000 → diffField row existingRow f = none) ∧
    (∀ (idx : List (Val × Entity)) (row : Row) (existingRow : Entity),
      lookupA idx (Val.str (rowDate "obs_date" row)) = some existingRow →
      (∀ f ∈ ["v"], diffField row existingRow f = none) →
      rowUpd "tbl" "obs_date" ["v"] "T2" idx row = none ∧
      rowRevs "tbl" "obs_date" ["v"] "T2" idx row = []) :=
  smart_update_idempotent ⟨true, Except.ok [], true, true, true⟩
    ⟨true, Except.ok (tableAfterRun ⟨true, Except.ok [], true, true, true⟩
      "tbl" [[("obs_date", Val.str "2024-01-01"), ("v", Val.num 5)]]
      "obs_date" ["v"] (fun _ => "2024-01-01") "T1" []), true, true, true⟩
    "tbl" [[("obs_date", Val.str "2024-01-01"), ("v", Val.num 5)]]
    "obs_date" ["v"] (fun _ => "2024-01-01") "T1" "T2" []
    (by simp)
    (by
      intro r hr
      rw [List.mem_singleton] at hr
      subst hr
      refine ⟨?_, rfl, rfl, rfl⟩
      show (List.map Prod.fst [("obs_date", Val.str "2024-01-01"),
        ("v", Val.num 5)]).Nodup
      decide)
    (by decide) (by decide) (by simp [runDf2])
    ⟨fun e he => absurd he (List.not_mem_nil e), by simp⟩
    rfl rfl rfl rfl

end EconDataPipeline
